import Mathlib

/-!
Verification development for the product-scraper repository.

The Python source is shallowly embedded: pure methods become Lean
functions over explicit data; collaborator calls (browser, AI model,
persistence) become function-typed or `Except`-typed parameters; Python
exceptions become `Except` error values; Python `None` becomes `Option`
or a JSON `null` value, matching each call site's semantics.

Text handled character-wise by the source (stripping, regex search,
fence removal, JSON parsing) is modelled as `List Char`; fields that the
source only ever compares for equality are modelled as `String`.
-/

namespace Scraper

/-- Character-list text, used wherever the Python source manipulates
strings character by character. -/
abbrev Str := List Char

/-! ## Product entity

Embeds `src/core/modules/products/scrape_product/entities/product.py`.
`Product.__init__` normalizes `images or []`, `sizes or []`,
`specifications or {}`; the mapping `specifications` is kept as an
association list. `enriched_data` holds an opaque payload. -/

structure Product where
  name : String
  price : Option String
  original_price : Option String
  description : Option String
  image_url : Option String
  images : List String
  url : Option String
  sku : Option String
  brand : Option String
  category : Option String
  color : Option String
  sizes : List String
  material : Option String
  specifications : List (String × String)
  enriched_data : Option (List (String × String))
deriving Repr, DecidableEq

/-- `Product.__init__`: the constructor receives optional containers and
stores `images or []`, `sizes or []`, `specifications or {}` (a passed
empty container is falsy in Python, so `getD` is exact), and starts with
`_enriched_data = None`. -/
def Product.make (name : String) (price original_price description image_url : Option String)
    (images : Option (List String)) (url sku brand category color : Option String)
    (sizes : Option (List String)) (material : Option String)
    (specifications : Option (List (String × String))) : Product :=
  { name := name
    price := price
    original_price := original_price
    description := description
    image_url := image_url
    images := images.getD []
    url := url
    sku := sku
    brand := brand
    category := category
    color := color
    sizes := sizes.getD []
    material := material
    specifications := specifications.getD []
    enriched_data := none }

/-- `Product.set_enriched_data`: assigns the enrichment payload and
returns the product. -/
def Product.set_enriched_data (p : Product) (data : List (String × String)) : Product :=
  { p with enriched_data := some data }

/-- `Product.has_discount`: `self._original_price is not None and
self._original_price != self._price` (Python `!=` between a string and
`None` is `True`, so the option-level disequality is exact). -/
def Product.has_discount (p : Product) : Bool :=
  p.original_price.isSome && decide (p.original_price ≠ p.price)

/-- The dictionary shape produced by `Product.to_dict`: empty container
fields are rendered as `None`. -/
structure ProductDict where
  name : String
  price : Option String
  original_price : Option String
  description : Option String
  image_url : Option String
  images : Option (List String)
  url : Option String
  sku : Option String
  brand : Option String
  category : Option String
  color : Option String
  sizes : Option (List String)
  material : Option String
  specifications : Option (List (String × String))
  enriched_data : Option (List (String × String))
deriving Repr, DecidableEq

/-- `Product.to_dict`: scalar fields pass through; `images`, `sizes` and
`specifications` are emitted as `self._x if self._x else None`, turning
an empty container back into `None`. -/
def Product.to_dict (p : Product) : ProductDict :=
  { name := p.name
    price := p.price
    original_price := p.original_price
    description := p.description
    image_url := p.image_url
    images := if p.images.isEmpty then none else some p.images
    url := p.url
    sku := p.sku
    brand := p.brand
    category := p.category
    color := p.color
    sizes := if p.sizes.isEmpty then none else some p.sizes
    material := p.material
    specifications := if p.specifications.isEmpty then none else some p.specifications
    enriched_data := p.enriched_data }

/-! ## JSON value model

The structured-data extractors and AI-reply parsers manipulate values
produced by `json.loads`. JSON values are modelled with numeric literals
restricted to integers (the scraped payloads the claims exercise carry
string or integer prices/sizes; floating-point literals are out of
scope). Python dictionaries are association lists with the key-lookup,
truthiness and equality semantics of the source. -/

inductive Json where
  | null : Json
  | bool : Bool → Json
  | num : Int → Json
  | str : Str → Json
  | arr : List Json → Json
  | obj : List (Str × Json) → Json
deriving Repr

/-- A Python dictionary resulting from `json.loads` (unique keys). -/
abbrev JsonObj := List (Str × Json)

/-- Dictionary key lookup (`d[k]` / `d.get(k)` when the key is present):
first matching key wins; `json.loads` output has unique keys. -/
def getField : JsonObj → Str → Option Json
  | [], _ => none
  | (k, v) :: rest, key => if k = key then some v else getField rest key

/-- `d.get(k)`: missing keys yield Python `None`, i.e. JSON null. -/
def pyGet (fields : JsonObj) (key : Str) : Json :=
  (getField fields key).getD .null

/-- `d.get(k, default)`. -/
def pyGetD (fields : JsonObj) (key : Str) (dflt : Json) : Json :=
  (getField fields key).getD dflt

/-- Python truthiness of a JSON value: `None`, `False`, `0`, and empty
strings/lists/dicts are falsy. -/
def pyTruthy : Json → Bool
  | .null => false
  | .bool b => b
  | .num n => n != 0
  | .str s => !s.isEmpty
  | .arr l => !l.isEmpty
  | .obj f => !f.isEmpty

mutual
/-- Python `==` on JSON values. Booleans equal their numeric value
(Python `bool` is an `int` subclass); dictionaries compare unordered. -/
def jsonEq : Json → Json → Bool
  | .null, .null => true
  | .bool a, .bool b => a = b
  | .bool a, .num n => (if a then (1 : Int) else 0) = n
  | .num n, .bool b => n = (if b then (1 : Int) else 0)
  | .num a, .num b => a = b
  | .str a, .str b => a = b
  | .arr a, .arr b => jsonEqList a b
  | .obj a, .obj b => jsonEqSub a b && jsonEqSub b a
  | _, _ => false
termination_by x y => sizeOf x + sizeOf y
decreasing_by all_goals (simp_wf; try omega)

def jsonEqList : List Json → List Json → Bool
  | [], [] => true
  | a :: as, b :: bs => jsonEq a b && jsonEqList as bs
  | _, _ => false
termination_by x y => sizeOf x + sizeOf y
decreasing_by all_goals (simp_wf; try omega)

/-- One inclusion of Python dict equality: every key of `a` is present in
`b` with an equal value (keys are unique in parsed JSON). -/
def jsonEqSub (a b : JsonObj) : Bool :=
  match a with
  | [] => true
  | (k, v) :: rest => jsonEqLookup k v b && jsonEqSub rest b
termination_by sizeOf a + sizeOf b
decreasing_by all_goals (simp_wf; try omega)

/-- Scan `b` for key `k` and compare its value with `v`. -/
def jsonEqLookup (k : Str) (v : Json) (b : JsonObj) : Bool :=
  match b with
  | [] => false
  | (k', w) :: rest => if k' = k then jsonEq v w else jsonEqLookup k v rest
termination_by sizeOf v + sizeOf b
decreasing_by all_goals (simp_wf; try omega)
end

mutual
/-- Python `repr()` of a JSON value, simplified: strings are quoted with
single quotes but without escape handling (the values the source renders
are plain scalars). -/
def pyRepr : Json → Str
  | .null => "None".data
  | .bool b => if b then "True".data else "False".data
  | .num n => (toString n).data
  | .str s => Char.ofNat 39 :: s ++ [Char.ofNat 39]
  | .arr l => Char.ofNat 91 :: pyReprList l ++ [Char.ofNat 93]
  | .obj f => Char.ofNat 123 :: pyReprFields f ++ [Char.ofNat 125]

def pyReprList : List Json → Str
  | [] => []
  | [x] => pyRepr x
  | x :: rest => pyRepr x ++ ", ".data ++ pyReprList rest

def pyReprFields : JsonObj → Str
  | [] => []
  | [(k, v)] => pyRepr (.str k) ++ ": ".data ++ pyRepr v
  | (k, v) :: rest =>
    pyRepr (.str k) ++ ": ".data ++ pyRepr v ++ ", ".data ++ pyReprFields rest
end

/-- Python `str()` of a JSON value, used by the price formatting. Exact
for `None`, booleans, integers and strings; containers use the
simplified `repr` rendering (the price fields the source applies this to
are scalars). -/
def pyStr : Json → Str
  | .null => "None".data
  | .bool b => if b then "True".data else "False".data
  | .num n => (toString n).data
  | .str s => s
  | .arr l => pyRepr (.arr l)
  | .obj f => pyRepr (.obj f)

/-! ## Enrichment entities

Embeds `product_enrichment.py`. The dataclass fields annotated
`Optional[str]` / `List[str]` receive raw values from `response.get`, so
they are modelled as `Json` (with `null` standing for Python `None`,
which `get` yields for a missing key). -/

structure MaterialParsed where
  primary : Json
  secondary : Json
  percentage : Json
deriving Repr

structure ProductAttributes where
  sleeve_type : Json
  neckline : Json
  fit : Json
  closure_type : Json
  pattern : Json
  heel_height : Json
  toe_style : Json
  uv_protection : Json
  material_parsed : Option MaterialParsed
  care_instructions : Json
  key_features : Json
deriving Repr

structure TargetAudience where
  gender : Json
  age_group : Json
  age_range : Json
deriving Repr

structure ProductCategorization where
  occasions : Json
  seasons : Json
  style_tags : Json
  target_audience : Option TargetAudience
  search_keywords : Json
  complementary_categories : Json
deriving Repr

structure ProductContent where
  seo_title : Json
  meta_description : Json
  short_description : Json
  marketing_highlights : Json
  image_alt_text : Json
deriving Repr

/-- `EnrichmentMetadata(model, version, enriched_at)`; the timestamp is
an opaque instant supplied by the clock. -/
structure EnrichmentMetadata where
  model : String
  version : String
  enriched_at : Nat
deriving Repr, DecidableEq

structure ProductEnrichment where
  product_id : Option Int
  attributes : ProductAttributes
  categorization : ProductCategorization
  content : ProductContent
  metadata : Option EnrichmentMetadata
deriving Repr

/-! ## Enrich-product use case

Embeds `EnrichProductUseCase.apply`. The three stage calls and the
repository are external collaborators: each stage outcome is an
`Except` value (`AIGatewayException` or any other exception), and the
repository's `save` is a supplied function. The embedding returns the
response together with whether `save` was invoked. -/

/-- An exception escaping an enrichment stage: the dedicated
`AIGatewayException`, or any other Python exception. -/
inductive EnrichExc where
  | aiGateway (msg : String)
  | other (msg : String)
deriving Repr, DecidableEq

/-- `EnrichProductError(error_type, message, step)` /
`EnrichProductSuccess(enrichment)`. -/
inductive EnrichResponse where
  | success (enrichment : ProductEnrichment)
  | error (error_type message : String) (step : Option String)
deriving Repr

/-- Collaborator outcomes for one run of `EnrichProductUseCase.apply`:
the result each stage action would produce (or the exception it would
raise), the AI model name, the repository's `save`, and whether a
repository was supplied. -/
structure EnrichRun where
  attrsResult : Except EnrichExc ProductAttributes
  categResult : Except EnrichExc ProductCategorization
  contentResult : Except EnrichExc ProductContent
  model_name : String
  save : ProductEnrichment → ProductEnrichment
  hasRepository : Bool

/-- The `except` clauses of `EnrichProductUseCase.apply`:
`AIGatewayException` maps to `error_type="ai_error"` with
`step="ai_call"`; any other exception maps to
`error_type="unexpected_error"` with no step. -/
def enrichExcToError : EnrichExc → EnrichResponse
  | .aiGateway m => .error "ai_error" m (some "ai_call")
  | .other m => .error "unexpected_error" m none

/-- Python truthiness of the optional `product_id` (`None` and `0` are
falsy). -/
def pidTruthy : Option Int → Bool
  | none => false
  | some n => n ≠ 0

/-- `EnrichProductUseCase.apply`: runs the three stages in sequence,
builds the enrichment with metadata (model name, version "1.0", clock
instant), saves it if a repository and a truthy product id are both
available, and converts any escaping exception to a tagged error.
Returns the response and whether `save` was invoked. -/
def enrichApply (run : EnrichRun) (product_id : Option Int) (now : Nat) :
    EnrichResponse × Bool :=
  match run.attrsResult with
  | .error e => (enrichExcToError e, false)
  | .ok attributes =>
    match run.categResult with
    | .error e => (enrichExcToError e, false)
    | .ok categorization =>
      match run.contentResult with
      | .error e => (enrichExcToError e, false)
      | .ok content =>
        let enrichment : ProductEnrichment :=
          { product_id := product_id
            attributes := attributes
            categorization := categorization
            content := content
            metadata := some ⟨run.model_name, "1.0", now⟩ }
        if run.hasRepository && pidTruthy product_id then
          (.success (run.save enrichment), true)
        else
          (.success enrichment, false)

/-- The exception aborting the run: the first stage (in execution order)
whose action raises, if any. -/
def firstStageExc (run : EnrichRun) : Option EnrichExc :=
  match run.attrsResult with
  | .error e => some e
  | .ok _ =>
    match run.categResult with
    | .error e => some e
    | .ok _ =>
      match run.contentResult with
      | .error e => some e
      | .ok _ => none

/-! ## Python string and int helpers -/

/-- Characters stripped by Python `str.strip()` (ASCII whitespace:
space, tab, newline, carriage return, vertical tab, form feed). -/
def isPySpace (c : Char) : Bool :=
  c = ' ' || c = '\t' || c = '\n' || c = '\r' || c = Char.ofNat 11 || c = Char.ofNat 12

def pyLStrip (s : Str) : Str := s.dropWhile isPySpace

def pyRStrip (s : Str) : Str := (s.reverse.dropWhile isPySpace).reverse

/-- Python `str.strip()`. -/
def pyStrip (s : Str) : Str := pyRStrip (pyLStrip s)

/-- Digit-sequence value for Python `int()`: a leading digit followed by
digits, with single underscores allowed between digits. -/
def pyDigitsGo (acc : Nat) : Str → Option Nat
  | [] => some acc
  | '_' :: c :: rest =>
    if c.isDigit then pyDigitsGo (acc * 10 + (c.toNat - 48)) rest else none
  | ['_'] => none
  | c :: rest =>
    if c.isDigit then pyDigitsGo (acc * 10 + (c.toNat - 48)) rest else none

def pyDigits : Str → Option Nat
  | [] => none
  | c :: rest => if c.isDigit then pyDigitsGo (c.toNat - 48) rest else none

/-- Python `int(s)` on a string: surrounding whitespace is stripped, an
optional sign precedes ASCII digits with optional single underscores
between digits; anything else raises `ValueError` (modelled as `none`). -/
def pyIntStr (s : Str) : Option Int :=
  match pyStrip s with
  | '+' :: rest => (pyDigits rest).map Int.ofNat
  | '-' :: rest => (pyDigits rest).map fun n => -(n : Int)
  | rest => (pyDigits rest).map Int.ofNat

/-- Python exceptions escaping the extraction helpers. `ValueError`
raised by `int()` is caught by `_extract_sizes`; `AttributeError` (from
`.get` on a non-dict) and `TypeError` (unorderable/unconvertible types)
propagate. -/
inductive PyExc where
  | attributeError
  | typeError
  | valueError
deriving Repr, DecidableEq

/-- Python `int(x)` on a JSON value: ints pass through, booleans coerce
to 0/1, strings parse or raise `ValueError`, anything else raises
`TypeError`. -/
def pyIntOfJson : Json → Except PyExc Int
  | .num n => .ok n
  | .bool b => .ok (if b then 1 else 0)
  | .str s =>
    match pyIntStr s with
    | some n => .ok n
    | none => .error .valueError
  | _ => .error .typeError

/-- Python `<=` on strings: lexicographic by code point. -/
def lexLe : Str → Str → Bool
  | [], _ => true
  | _ :: _, [] => false
  | a :: as, b :: bs => if a = b then lexLe as bs else decide (a < b)

/-! ## Structured-data extractor

Embeds `PlaywrightBrowserAdapter.extract_json_ld`. The page's embedded
structured-data blocks are given in document order, each as the result
of `json.loads` on the script body (`none` for an empty script or one
whose JSON fails to parse — those are skipped by the
`except json.JSONDecodeError: continue` clause). -/

/-- `item.get("@type") in ["Product", "ProductGroup"]`: the declared
type equals one of the two recognized product-shaped type names. -/
def typeIsProduct (j : Json) : Bool :=
  match j with
  | .str s => s = "Product".data || s = "ProductGroup".data
  | _ => false

/-- The `for item in data:` loop over a list-shaped block: return the
first item whose `@type` is recognized; `item.get` on a non-dict item
raises `AttributeError` (not caught by the adapter). -/
def firstProductItem : List Json → Except PyExc (Option Json)
  | [] => .ok none
  | .obj f :: rest =>
    if typeIsProduct (pyGet f "@type".data) then .ok (some (.obj f))
    else firstProductItem rest
  | _ :: _ => .error .attributeError

/-- `PlaywrightBrowserAdapter.extract_json_ld`: scan the blocks in
order; a list block yields its first recognized item, a dict block
yields itself when its own `@type` is recognized; any other parsed
block raises `AttributeError` at `data.get`. No match in a block moves
on to the next; exhaustion yields `None`. -/
def extract_json_ld : List (Option Json) → Except PyExc (Option Json)
  | [] => .ok none
  | none :: rest => extract_json_ld rest
  | some (.arr items) :: rest =>
    match firstProductItem items with
    | .error e => .error e
    | .ok (some item) => .ok (some item)
    | .ok none => extract_json_ld rest
  | some (.obj fields) :: rest =>
    if typeIsProduct (pyGet fields "@type".data) then .ok (some (.obj fields))
    else extract_json_ld rest
  | some _ :: _ => .error .attributeError

/-- Every block is a skipped script, a dict, or a list of dicts (the
shapes on which the adapter cannot raise). -/
def blockWellShaped : Option Json → Prop
  | none => True
  | some (.obj _) => True
  | some (.arr items) => ∀ i ∈ items, ∃ f, i = .obj f
  | some _ => False

/-- Selection rule in the spec's vocabulary, restricted to the two block
shapes the adapter recognizes (single dict, list of dicts): the first
object in document/list order whose declared type is recognized. Used
to compare `extract_json_ld` against the amended claim. -/
def listFirstProduct : List Json → Option Json
  | [] => none
  | .obj f :: rest =>
    if typeIsProduct (pyGet f "@type".data) then some (.obj f)
    else listFirstProduct rest
  | _ :: rest => listFirstProduct rest

def blockFirstProduct : Option Json → Option Json
  | some (.obj f) =>
    if typeIsProduct (pyGet f "@type".data) then some (.obj f) else none
  | some (.arr items) => listFirstProduct items
  | _ => none

def selectedBlock : List (Option Json) → Option Json
  | [] => none
  | b :: rest =>
    match blockFirstProduct b with
    | some j => some j
    | none => selectedBlock rest

/-! ## Product-field extraction actions

Embeds `ExtractProductDetailsAction` helpers. Their `json_ld_data`
argument is what `extract_json_ld` produced: `None` or a parsed dict,
so it is typed `Option JsonObj`. -/

/-- `_extract_original_price`: only `offers.highPrice` when `offers` is
a dict, emitted as `f"R${list_price}"` only when truthy and its `str()`
form differs from `str(offers.get("lowPrice", ""))`. -/
def extract_original_price (json_ld_data : Option JsonObj) : Option Str :=
  match json_ld_data with
  | none => none
  | some fields =>
    if fields.isEmpty then none
    else
      match getField fields "offers".data with
      | none => none
      | some (.obj ofields) =>
        let list_price := pyGet ofields "highPrice".data
        if pyTruthy list_price &&
            pyStr list_price ≠ pyStr (pyGetD ofields "lowPrice".data (.str [])) then
          some ("R$".data ++ pyStr list_price)
        else none
      | some _ => none

/-- One position of `re.search(r"-(\d{8})_", url)`: a hyphen, exactly
eight ASCII digits, then an underscore (a ninth digit where the
underscore is required makes the position fail — the quantifier is
fixed-width). -/
def skuMatchHere : Str → Option Str
  | [] => none
  | c :: rest =>
    if c = '-' then
      let digits := rest.take 8
      if digits.length = 8 && digits.all Char.isDigit then
        match rest.drop 8 with
        | '_' :: _ => some digits
        | _ => none
      else none
    else none

/-- `re.search` scans left to right and returns the first matching
position's group. -/
def searchSku : Str → Option Str
  | [] => none
  | c :: rest =>
    match skuMatchHere (c :: rest) with
    | some d => some d
    | none => searchSku rest

/-- `_extract_sku`: the structured `sku` value when the payload dict is
truthy and the value is truthy (returned as-is, whatever its JSON
type); else the regex group over the current URL, guarded by the
(redundant) `"_" in current_url` check; else `None`. -/
def extract_sku (json_ld_data : Option JsonObj) (current_url : Str) : Option Json :=
  let fromUrl : Option Json :=
    if current_url.contains '_' then (searchSku current_url).map Json.str else none
  match json_ld_data with
  | some fields =>
    if !fields.isEmpty then
      let sku := pyGet fields "sku".data
      if pyTruthy sku then some sku else fromUrl
    else fromUrl
  | none => fromUrl

/-- Python `x in list` membership via `==`. -/
def jsonMem (x : Json) (l : List Json) : Bool :=
  l.any fun e => jsonEq e x

/-- The collection loop of `_extract_sizes`: each variant's `size`
value is appended when truthy and not already collected;
`variant.get` on a non-dict variant raises `AttributeError`. -/
def collectSizes : List Json → List Json → Except PyExc (List Json)
  | [], acc => .ok acc
  | .obj vf :: rest, acc =>
    let size := pyGet vf "size".data
    if pyTruthy size && !jsonMem size acc then collectSizes rest (acc ++ [size])
    else collectSizes rest acc
  | _ :: _, _ => .error .attributeError

/-- Plain `sorted(sizes)`: all strings sort lexicographically, all
numbers/booleans sort by value, mixed element kinds raise `TypeError`
(comparisons of nested containers are not modelled — the variant sizes
are scalars). -/
def strContent : Json → Str
  | .str s => s
  | _ => []

def isJsonStr : Json → Bool
  | .str _ => true
  | _ => false

def isJsonNum : Json → Bool
  | .num _ => true
  | .bool _ => true
  | _ => false

def numContent : Json → Int
  | .num n => n
  | .bool b => if b then 1 else 0
  | _ => 0

def pySorted (l : List Json) : Except PyExc (List Json) :=
  if l.all isJsonStr then
    .ok (l.mergeSort fun a b => lexLe (strContent a) (strContent b))
  else if l.all isJsonNum then
    .ok (l.mergeSort fun a b => decide (numContent a ≤ numContent b))
  else .error .typeError

/-- `sorted(sizes, key=lambda x: int(x))` with the `except ValueError`
fallback: CPython first computes every key left to right (a `ValueError`
from `int()` triggers the plain-sort fallback, a `TypeError`
propagates), then sorts stably by key. -/
def sortSizes (sizes : List Json) : Except PyExc (List Json) :=
  match sizes.mapM (fun s => (pyIntOfJson s).map fun k => (k, s)) with
  | .ok pairs => .ok ((pairs.mergeSort fun a b => decide (a.1 ≤ b.1)).map (·.2))
  | .error .valueError => pySorted sizes
  | .error e => .error e

/-- `_extract_sizes`: `None` without a truthy payload carrying a
`hasVariant` list; otherwise collect, sort, and return `None` for an
empty result. -/
def extract_sizes (json_ld_data : Option JsonObj) : Except PyExc (Option (List Json)) :=
  match json_ld_data with
  | none => .ok none
  | some fields =>
    if fields.isEmpty then .ok none
    else
      match getField fields "hasVariant".data with
      | none => .ok none
      | some (.arr vlist) => do
        let sizes ← collectSizes vlist []
        let out ← sortSizes sizes
        return (if out.isEmpty then none else some out)
      | some _ => .ok none

/-- Stored sort key of a collected size under `int()` (meaningful on the
all-keys-computable branch). -/
def sizeIntKey (j : Json) : Int :=
  (pyIntOfJson j).toOption.getD 0

/-! ## AI stage reply parsers (C8)

Embeds `_parse_response` of `ExtractAttributesAction`,
`CategorizeProductAction` and `GenerateContentAction`. Each receives the
dict-shaped JSON reply of the AI collaborator. `response.get(k)` yields
`null` for a missing key; `response.get(k, [])` yields the empty list.
A truthy non-dict under `material_parsed` / `target_audience` raises
`AttributeError` at the nested `.get` calls. -/

/-- `ExtractAttributesAction._parse_response`. -/
def parse_attributes (response : JsonObj) : Except PyExc ProductAttributes := do
  let material_data := pyGet response "material_parsed".data
  let material_parsed : Option MaterialParsed ←
    if pyTruthy material_data then
      match material_data with
      | .obj f =>
        .ok (some ⟨pyGet f "primary".data, pyGet f "secondary".data,
          pyGet f "percentage".data⟩)
      | _ => .error .attributeError
    else .ok none
  return { sleeve_type := pyGet response "sleeve_type".data
           neckline := pyGet response "neckline".data
           fit := pyGet response "fit".data
           closure_type := pyGet response "closure_type".data
           pattern := pyGet response "pattern".data
           heel_height := pyGet response "heel_height".data
           toe_style := pyGet response "toe_style".data
           uv_protection := pyGet response "uv_protection".data
           material_parsed := material_parsed
           care_instructions := pyGet response "care_instructions".data
           key_features := pyGetD response "key_features".data (.arr []) }

/-- `CategorizeProductAction._parse_response`: `target_audience`
defaults to the (falsy) empty dict. -/
def parse_categorization (response : JsonObj) :
    Except PyExc ProductCategorization := do
  let audience_data := pyGetD response "target_audience".data (.obj [])
  let target_audience : Option TargetAudience ←
    if pyTruthy audience_data then
      match audience_data with
      | .obj f =>
        .ok (some ⟨pyGet f "gender".data, pyGet f "age_group".data,
          pyGet f "age_range".data⟩)
      | _ => .error .attributeError
    else .ok none
  return { occasions := pyGetD response "occasions".data (.arr [])
           seasons := pyGetD response "seasons".data (.arr [])
           style_tags := pyGetD response "style_tags".data (.arr [])
           target_audience := target_audience
           search_keywords := pyGetD response "search_keywords".data (.arr [])
           complementary_categories :=
             pyGetD response "complementary_categories".data (.arr []) }

/-- `GenerateContentAction._parse_response`: flat lookups only, never
raises. -/
def parse_content (response : JsonObj) : ProductContent :=
  { seo_title := pyGet response "seo_title".data
    meta_description := pyGet response "meta_description".data
    short_description := pyGet response "short_description".data
    marketing_highlights := pyGetD response "marketing_highlights".data (.arr [])
    image_alt_text := pyGet response "image_alt_text".data }

/-- The keys `ExtractAttributesAction._parse_response` reads. -/
def attrs_keys : List Str :=
  ["sleeve_type".data, "neckline".data, "fit".data, "closure_type".data,
   "pattern".data, "heel_height".data, "toe_style".data, "uv_protection".data,
   "material_parsed".data, "care_instructions".data, "key_features".data]

/-- The keys `CategorizeProductAction._parse_response` reads. -/
def categ_keys : List Str :=
  ["occasions".data, "seasons".data, "style_tags".data, "target_audience".data,
   "search_keywords".data, "complementary_categories".data]

/-- The keys `GenerateContentAction._parse_response` reads. -/
def content_keys : List Str :=
  ["seo_title".data, "meta_description".data, "short_description".data,
   "marketing_highlights".data, "image_alt_text".data]

/-! ## Scrape-product pipeline (C3)

Embeds `FindProductLinkAction.apply` and `ScrapeProductUseCase.apply`.
The browser is an external collaborator: the search page is a pair of
query functions (`query_selector` returning an element handle,
`get_element_attribute` returning an attribute value). -/

/-- An exception escaping a scrape step: the two dedicated exceptions of
the module, or any other Python exception (`TypeError`, ...). -/
inductive ScrapeExc where
  | productNotFound (query : String)
  | navigation (url reason : String)
  | otherExc (msg : String)
deriving Repr, DecidableEq

/-- `ScrapeProductError(error_type, message, query)` /
`ScrapeProductSuccess(product)`. -/
inductive ScrapeResponse where
  | success (product : Product)
  | error (error_type message : String) (query : Option String)
deriving Repr, DecidableEq

/-- DOM access on the search-results page. -/
structure SearchPage where
  query_selector : String → Option Nat
  get_element_attribute : Nat → String → Option String

/-- `FindProductLinkAction.PRODUCT_SELECTORS`. -/
def PRODUCT_SELECTORS : List String :=
  ["#showcase ol > li a[href]",
   "[data-testid='open-product-recommendation']",
   "a[href*='riachuelo']"]

/-- The selector loop of `FindProductLinkAction.apply`: the first
selector matching an element whose `href` is truthy wins; the href is
absolutized against `base_url` unless it already starts with "http";
exhaustion raises `ProductNotFoundException(query)`. -/
def findLinkLoop (page : SearchPage) (base_url query : String) :
    List String → Except ScrapeExc String
  | [] => .error (.productNotFound query)
  | sel :: rest =>
    match page.query_selector sel with
    | none => findLinkLoop page base_url query rest
    | some el =>
      match page.get_element_attribute el "href" with
      | none => findLinkLoop page base_url query rest
      | some href =>
        if href = "" then findLinkLoop page base_url query rest
        else if href.startsWith "http" then .ok href
        else .ok (base_url ++ href)

/-- `FindProductLinkAction.apply`. -/
def find_product_link_apply (page : SearchPage) (base_url query : String) :
    Except ScrapeExc String :=
  findLinkLoop page base_url query PRODUCT_SELECTORS

/-- `ProductNotFoundException.__init__` message. -/
def notFoundMessage (query : String) : String :=
  "No product found for query: \"" ++ query ++ "\""

/-- `NavigationException.__init__` message. -/
def navigationMessage (url reason : String) : String :=
  "Failed to navigate to: \"" ++ url ++ "\"" ++
    (if reason = "" then "" else " - " ++ reason)

/-- The `except` clauses of `ScrapeProductUseCase.apply`:
`ProductNotFoundException` maps to `error_type="product_not_found"`,
`NavigationException` to `"navigation_error"`, anything else to
`"unexpected_error"`; every error carries the input query. -/
def excToScrapeError (input_query : String) : ScrapeExc → ScrapeResponse
  | .productNotFound q => .error "product_not_found" (notFoundMessage q) (some input_query)
  | .navigation url reason =>
    .error "navigation_error" (navigationMessage url reason) (some input_query)
  | .otherExc msg => .error "unexpected_error" msg (some input_query)

/-- The `TypeError` actually raised in `ScrapeProductUseCase.apply`: the
use case calls `self.navigate_to_search.apply(input_data.query)` with a
single argument, but `NavigateToSearchAction.apply` requires
`(base_url, query)` (the constructor mismatch —
`NavigateToSearchAction(ecommerce_gateway, log)` against
`__init__(self, browser_gateway)` — already raises the same way before
any run). -/
def scrapeArityErrorMessage : String :=
  "NavigateToSearchAction.apply() missing 1 required positional argument: 'query'"

/-- The `try` block of `ScrapeProductUseCase.apply` as the source wires
it: its first action call raises `TypeError` before any navigation. -/
def scrapeTryBlockAsWired : Except ScrapeExc Product :=
  .error (.otherExc scrapeArityErrorMessage)

/-- `ScrapeProductUseCase.apply` as wired: the try block's outcome is
converted by the `except` clauses. -/
def scrapeApplyAsWired (query : String) : ScrapeResponse :=
  match scrapeTryBlockAsWired with
  | .ok product => .success product
  | .error e => excToScrapeError query e

/-! ## Response JSON normalizer (C6)

Embeds `ClaudeAIAdapter._parse_json_response` together with the
`json.loads` it calls. The JSON grammar is modelled with numeric
literals restricted to integers (no fractions/exponents — float
semantics are out of scope) and `\uXXXX` escapes mapped to single code
points; strict mode: raw control characters inside strings and
non-JSON whitespace are rejected, duplicate object keys keep the last
value. -/

/-- Whitespace accepted between JSON tokens by `json.loads`. -/
def isJsonWs (c : Char) : Bool :=
  c = ' ' || c = '\t' || c = '\n' || c = '\r'

def skipJsonWs (s : Str) : Str := s.dropWhile isJsonWs

/-- The backtick character (code point 96). -/
def backtick : Char := Char.ofNat 96

/-- Value of a hexadecimal digit. -/
def hexVal (c : Char) : Option Nat :=
  if c.isDigit then some (c.toNat - 48)
  else if 'a' ≤ c && c ≤ 'f' then some (c.toNat - 87)
  else if 'A' ≤ c && c ≤ 'F' then some (c.toNat - 55)
  else none

/-- Single-character JSON string escapes. -/
def escChar (c : Char) : Option Char :=
  if c = '"' then some '"'
  else if c = '\\' then some '\\'
  else if c = '/' then some '/'
  else if c = 'b' then some (Char.ofNat 8)
  else if c = 'f' then some (Char.ofNat 12)
  else if c = 'n' then some '\n'
  else if c = 'r' then some '\r'
  else if c = 't' then some '\t'
  else none

def digitsToNat (ds : Str) : Nat :=
  ds.foldl (fun acc c => acc * 10 + (c.toNat - 48)) 0

/-- A JSON natural-number literal: one or more digits, no leading zero
unless the literal is `0` itself. -/
def parseNatDigits (s : Str) : Option (Nat × Str) :=
  if (s.takeWhile Char.isDigit).isEmpty then none
  else if (s.takeWhile Char.isDigit).length > 1 &&
      (s.takeWhile Char.isDigit).head? = some '0' then none
  else some (digitsToNat (s.takeWhile Char.isDigit), s.dropWhile Char.isDigit)

/-- A JSON integer literal with optional minus sign. -/
def parseIntFrom (s : Str) : Except Unit (Int × Str) :=
  match s with
  | [] => .error ()
  | c :: rest =>
    if c = '-' then
      match parseNatDigits rest with
      | some (n, r) => .ok (-(n : Int), r)
      | none => .error ()
    else
      match parseNatDigits (c :: rest) with
      | some (n, r) => .ok ((n : Int), r)
      | none => .error ()

/-- Insert a key into a parsed object: a duplicate key keeps its first
position but takes the later value, matching `dict` assignment. -/
def objInsert (fields : JsonObj) (k : Str) (v : Json) : JsonObj :=
  match fields with
  | [] => [(k, v)]
  | (k', w) :: rest => if k' = k then (k', v) :: rest else (k', w) :: objInsert rest k v

mutual
/-- JSON string body after the opening quote: content up to the closing
quote plus the remaining input (fuelled like the other productions; the
fuel is amply supplied by `json_loads`). -/
def parseStringRest : Nat → Str → Except Unit (Str × Str)
  | 0, _ => .error ()
  | _ + 1, [] => .error ()
  | fuel + 1, c :: rest =>
    if c = '"' then .ok ([], rest)
    else if c = '\\' then
      match rest with
      | 'u' :: h1 :: h2 :: h3 :: h4 :: rest2 =>
        match hexVal h1, hexVal h2, hexVal h3, hexVal h4 with
        | some a, some b, some c', some d =>
          (parseStringRest fuel rest2).map fun p =>
            (Char.ofNat (((a * 16 + b) * 16 + c') * 16 + d) :: p.1, p.2)
        | _, _, _, _ => .error ()
      | e :: rest2 =>
        match escChar e with
        | some ec => (parseStringRest fuel rest2).map fun p => (ec :: p.1, p.2)
        | none => .error ()
      | [] => .error ()
    else if c.toNat < 32 then .error ()
    else (parseStringRest fuel rest).map fun p => (c :: p.1, p.2)

/-- One JSON value starting at the current position. -/
def parseValue : Nat → Str → Except Unit (Json × Str)
  | 0, _ => .error ()
  | fuel + 1, s =>
    match s with
    | [] => .error ()
    | c :: rest =>
      if c = '"' then
        (parseStringRest fuel rest).map fun p => (.str p.1, p.2)
      else if c = '{' then
        match skipJsonWs rest with
        | '}' :: r => .ok (.obj [], r)
        | s1 => parseMembers fuel s1 []
      else if c = '[' then
        match skipJsonWs rest with
        | ']' :: r => .ok (.arr [], r)
        | s1 => parseElems fuel s1 []
      else if c = 't' then
        match rest with
        | 'r' :: 'u' :: 'e' :: r => .ok (.bool true, r)
        | _ => .error ()
      else if c = 'f' then
        match rest with
        | 'a' :: 'l' :: 's' :: 'e' :: r => .ok (.bool false, r)
        | _ => .error ()
      else if c = 'n' then
        match rest with
        | 'u' :: 'l' :: 'l' :: r => .ok (.null, r)
        | _ => .error ()
      else
        (parseIntFrom (c :: rest)).map fun p => (.num p.1, p.2)

/-- Object members after `{` (at least one member): `"key": value`
pairs separated by commas, closed by `}`. -/
def parseMembers : Nat → Str → JsonObj → Except Unit (Json × Str)
  | 0, _, _ => .error ()
  | fuel + 1, s, acc =>
    match s with
    | '"' :: rest =>
      match parseStringRest fuel rest with
      | .error _ => .error ()
      | .ok (key, r1) =>
        match skipJsonWs r1 with
        | ':' :: r3 =>
          match parseValue fuel (skipJsonWs r3) with
          | .error _ => .error ()
          | .ok (v, r4) =>
            match skipJsonWs r4 with
            | ',' :: r6 => parseMembers fuel (skipJsonWs r6) (objInsert acc key v)
            | '}' :: r6 => .ok (.obj (objInsert acc key v), r6)
            | _ => .error ()
        | _ => .error ()
    | _ => .error ()

/-- Array elements after `[` (at least one element): values separated
by commas, closed by `]`. -/
def parseElems : Nat → Str → List Json → Except Unit (Json × Str)
  | 0, _, _ => .error ()
  | fuel + 1, s, acc =>
    match parseValue fuel s with
    | .error _ => .error ()
    | .ok (v, r1) =>
      match skipJsonWs r1 with
      | ',' :: r2 => parseElems fuel (skipJsonWs r2) (acc ++ [v])
      | ']' :: r2 => .ok (.arr (acc ++ [v]), r2)
      | _ => .error ()
end

/-- `json.loads`: one value with surrounding whitespace, nothing after. -/
def json_loads (s : Str) : Except Unit Json :=
  match parseValue (s.length + 1) (skipJsonWs s) with
  | .ok (v, rest) => if (skipJsonWs rest).isEmpty then .ok v else .error ()
  | .error _ => .error ()

/-- `cleaned.startswith("```")`. -/
def startsWithFence : Str → Bool
  | c1 :: c2 :: c3 :: _ => c1 = backtick && c2 = backtick && c3 = backtick
  | _ => false

/-- `cleaned.endswith("```")`: the last three characters are backticks. -/
def endsWithTicks (s : Str) : Bool := startsWithFence s.reverse

/-- `cleaned[first_newline + 1:]` when `cleaned.find("\n") != -1`,
otherwise `cleaned` unchanged. -/
def dropThroughNewline (s : Str) : Str :=
  if s.contains '\n' then (s.dropWhile fun c => !(c = '\n')).drop 1 else s

/-- `cleaned[:-3]`. -/
def dropLast3 (s : Str) : Str := s.take (s.length - 3)

/-- The cleaning steps of `_parse_json_response`: strip, drop the fence
line and a trailing fence when the text starts with a fence, strip
again. -/
def stripWrapping (response_text : Str) : Str :=
  let cleaned := pyStrip response_text
  let cleaned2 :=
    if startsWithFence cleaned then
      let afterLine := dropThroughNewline cleaned
      if endsWithTicks afterLine then dropLast3 afterLine else afterLine
    else cleaned
  pyStrip cleaned2

/-- `ClaudeAIAdapter._parse_json_response`: clean, then parse; a parse
failure propagates as the `json.JSONDecodeError` the method documents. -/
def parse_json_response (response_text : Str) : Except Unit Json :=
  json_loads (stripWrapping response_text)

/-- A reply wrapped in a triple-backtick fenced code block: fence line
with optional language tag, the payload, and an optional trailing
fence. -/
def wrapFence (lang t : Str) (trailing : Bool) : Str :=
  backtick :: backtick :: backtick :: lang ++
    '\n' :: t ++ (if trailing then '\n' :: backtick :: backtick :: [backtick] else [])

/-- Characters that can start a JSON value. -/
def goodStart (c : Char) : Prop :=
  c = '"' ∨ c = '{' ∨ c = '[' ∨ c = 't' ∨ c = 'f' ∨ c = 'n' ∨ c = '-' ∨
    c.isDigit = true

/-- Characters that can end a JSON value. -/
def goodEnd (c : Char) : Prop :=
  c = '"' ∨ c = '}' ∨ c = ']' ∨ c = 'e' ∨ c = 'l' ∨ c.isDigit = true

/-! # Theorems -/

/-! ## Regex-search lemmas for SKU resolution -/

theorem skuMatchHere_sound {s : Str} {d : Str} (h : skuMatchHere s = some d) :
    d.length = 8 ∧ d.all Char.isDigit = true ∧ ∃ b, s = '-' :: (d ++ '_' :: b) := by
  match s with
  | [] => simp [skuMatchHere] at h
  | c :: rest =>
    simp only [skuMatchHere] at h
    split at h
    · rename_i hc
      subst hc
      split at h
      · rename_i hcond
        split at h
        · rename_i b hdrop
          cases h
          have hconj := (Bool.and_eq_true _ _).mp hcond
          have hlen : (rest.take 8).length = 8 := of_decide_eq_true hconj.1
          have hdig : (rest.take 8).all Char.isDigit = true := hconj.2
          refine ⟨hlen, hdig, b, ?_⟩
          have hsplit : rest = rest.take 8 ++ rest.drop 8 :=
            (List.take_append_drop 8 rest).symm
          rw [hdrop] at hsplit
          conv_lhs => rw [hsplit]
        · cases h
      · cases h
    · cases h

theorem searchSku_sound {url d : Str} (h : searchSku url = some d) :
    d.length = 8 ∧ d.all Char.isDigit = true ∧ ∃ a b, url = a ++ '-' :: (d ++ '_' :: b) := by
  induction url with
  | nil => simp [searchSku] at h
  | cons c rest ih =>
    simp only [searchSku] at h
    cases hm : skuMatchHere (c :: rest) with
    | some d' =>
      rw [hm] at h
      cases h
      obtain ⟨h1, h2, b, hb⟩ := skuMatchHere_sound hm
      exact ⟨h1, h2, [], b, hb⟩
    | none =>
      rw [hm] at h
      obtain ⟨h1, h2, a, b, hb⟩ := ih h
      exact ⟨h1, h2, c :: a, b, by rw [hb, List.cons_append]⟩

theorem searchSku_complete {d : Str} (a b : Str) (hlen : d.length = 8)
    (hdig : d.all Char.isDigit = true) :
    ∃ d', searchSku (a ++ '-' :: (d ++ '_' :: b)) = some d' := by
  induction a with
  | nil =>
    refine ⟨d, ?_⟩
    have htake : (d ++ '_' :: b).take 8 = d := by
      have := List.take_left d ('_' :: b)
      rwa [hlen] at this
    have hdrop : (d ++ '_' :: b).drop 8 = '_' :: b := by
      have := List.drop_left d ('_' :: b)
      rwa [hlen] at this
    simp only [List.nil_append, searchSku, skuMatchHere, htake, hdrop, hlen, hdig]
    simp
  | cons c a' ih =>
    simp only [List.cons_append, searchSku]
    cases hm : skuMatchHere (c :: (a' ++ '-' :: (d ++ '_' :: b))) with
    | some d' => exact ⟨d', rfl⟩
    | none => exact ih

theorem searchSku_contains {url d : Str} (h : searchSku url = some d) :
    url.contains '_' = true := by
  obtain ⟨_, _, a, b, hb⟩ := searchSku_sound h
  subst hb
  simp [List.contains]

theorem sku_fromUrl_eq (url : Str) :
    (if url.contains '_' then (searchSku url).map Json.str else none) =
      (searchSku url).map Json.str := by
  cases hc : url.contains '_' with
  | true => rfl
  | false =>
    cases hs : searchSku url with
    | none => rfl
    | some d => rw [searchSku_contains hs] at hc; cases hc

/-- C9 (amended): SKU resolution first returns the structured `sku`
value when the payload is a non-empty dict and the value is truthy;
otherwise it behaves exactly as the regex search, which succeeds when —
and only when — the URL contains a hyphen, followed by exactly eight
ASCII digits, followed by an underscore, and then returns those eight
digits (the claim's hyphen-free "8-digit run before an underscore" is
not sufficient). -/
theorem extract_sku_amended :
    (∀ fields url sku, fields.isEmpty = false →
      getField fields "sku".data = some sku → pyTruthy sku = true →
      extract_sku (some fields) url = some sku) ∧
    (∀ fields url, pyTruthy (pyGet fields "sku".data) = false →
      extract_sku (some fields) url = (searchSku url).map Json.str) ∧
    (∀ url, extract_sku none url = (searchSku url).map Json.str) ∧
    (∀ url d, searchSku url = some d →
      d.length = 8 ∧ d.all Char.isDigit = true ∧
        ∃ a b, url = a ++ '-' :: (d ++ '_' :: b)) ∧
    (∀ url a d b, url = a ++ '-' :: (d ++ '_' :: b) → d.length = 8 →
      d.all Char.isDigit = true → ∃ d', searchSku url = some d') := by
  refine ⟨?_, ?_, ?_, ?_, ?_⟩
  · intro fields url sku hne hget htr
    have hpy : pyGet fields "sku".data = sku := by simp [pyGet, hget]
    simp [extract_sku, hne, hpy, htr]
  · intro fields url htr
    cases hne : fields.isEmpty with
    | true =>
      simp only [extract_sku, hne, Bool.not_true, Bool.false_eq_true, if_false]
      exact sku_fromUrl_eq url
    | false =>
      simp only [extract_sku, hne, Bool.not_false, if_true, htr, Bool.false_eq_true,
        if_false]
      exact sku_fromUrl_eq url
  · intro url
    simp only [extract_sku]
    exact sku_fromUrl_eq url
  · intro url d h
    exact searchSku_sound h
  · intro url a d b hurl hlen hdig
    subst hurl
    exact searchSku_complete a b hlen hdig

/-- Witness for C9's amended theorem: the structured `sku` wins when
truthy, and the URL pattern yields the hyphen-guarded digits. -/
theorem extract_sku_amended_witness :
    extract_sku (some [("sku".data, Json.str "15247848".data)]) [] =
      some (Json.str "15247848".data) ∧
    extract_sku none "https://www.riachuelo.com.br/camisa-15247848_a.html".data =
      some (Json.str "15247848".data) := by
  constructor
  · exact extract_sku_amended.1 _ [] _ (by decide) rfl (by decide)
  · rw [extract_sku_amended.2.2.1]
    rfl

/-- Counterexample for C9 as stated: this URL contains an 8-digit
numeric run immediately preceding an underscore (shown by the explicit
decomposition), yet with no structured data the resolver yields no SKU,
because the source pattern additionally requires a hyphen immediately
before the digits. -/
theorem extract_sku_counterexample :
    (∃ a b, ("https://shop.example/p/ab12345678_x".data : Str) =
        a ++ ("12345678".data ++ '_' :: b) ∧
      ("12345678".data : Str).length = 8 ∧
      ("12345678".data : Str).all Char.isDigit = true) ∧
    extract_sku none "https://shop.example/p/ab12345678_x".data = none :=
  ⟨⟨"https://shop.example/p/ab".data, "x".data, by decide, by decide, by decide⟩,
    rfl⟩

/-! ## Structured-data selection (C2) -/

theorem firstProductItem_eq {items : List Json}
    (h : ∀ i ∈ items, ∃ f, i = .obj f) :
    firstProductItem items = .ok (listFirstProduct items) := by
  induction items with
  | nil => rfl
  | cons i rest ih =>
    obtain ⟨f, hf⟩ := h i (by simp)
    subst hf
    simp only [firstProductItem, listFirstProduct]
    split
    · rfl
    · exact ih fun j hj => h j (by simp [hj])

/-- C2 (amended): on well-shaped blocks (each skipped, a dict, or a list
of dicts) the extractor returns exactly the first object in
document/list order whose declared `@type` is `Product` or
`ProductGroup`, and none when no block declares one; a container object
holding a `@graph` of sub-objects is *not* recursed into — it is
skipped like any other unrecognized dict. -/
theorem extract_json_ld_selects (blocks : List (Option Json))
    (h : ∀ b ∈ blocks, blockWellShaped b) :
    extract_json_ld blocks = .ok (selectedBlock blocks) := by
  induction blocks with
  | nil => rfl
  | cons b rest ih =>
    have hb := h b (by simp)
    have hrest := fun x hx => h x (List.mem_cons_of_mem _ hx)
    match b with
    | none =>
      simp only [extract_json_ld, selectedBlock, blockFirstProduct]
      exact ih hrest
    | some (.obj fields) =>
      simp only [extract_json_ld, selectedBlock, blockFirstProduct]
      split
      · rfl
      · exact ih hrest
    | some (.arr items) =>
      have : firstProductItem items = .ok (listFirstProduct items) :=
        firstProductItem_eq (by exact hb)
      simp only [extract_json_ld, selectedBlock, blockFirstProduct, this]
      cases hfp : listFirstProduct items with
      | some j => simp
      | none => simp only []; exact ih hrest
    | some (.null) => exact absurd hb (by simp [blockWellShaped])
    | some (.bool v) => exact absurd hb (by simp [blockWellShaped])
    | some (.num v) => exact absurd hb (by simp [blockWellShaped])
    | some (.str v) => exact absurd hb (by simp [blockWellShaped])

/-- Witness for C2's amended theorem: a malformed block, a list block
with an unrecognized then a recognized item, and a later dict block —
the first recognized object (the `ProductGroup` inside the list) is
selected and the later block is never reached. -/
theorem extract_json_ld_selects_witness :
    extract_json_ld
        [none,
         some (.arr [.obj [("@type".data, Json.str "BreadcrumbList".data)],
                     .obj [("@type".data, Json.str "ProductGroup".data)]]),
         some (.obj [("@type".data, Json.str "Product".data)])] =
      .ok (some (.obj [("@type".data, Json.str "ProductGroup".data)])) := by
  rw [extract_json_ld_selects]
  · rfl
  · intro b hb
    simp only [List.mem_cons, List.not_mem_nil, or_false] at hb
    rcases hb with rfl | rfl | rfl
    · trivial
    · simp only [blockWellShaped]
      intro i hi
      simp only [List.mem_cons, List.not_mem_nil, or_false] at hi
      rcases hi with rfl | rfl
      · exact ⟨_, rfl⟩
      · exact ⟨_, rfl⟩
    · trivial

/-- Counterexample for C2 as stated: a container block holding a
`@graph` whose sub-object declares the recognized type `Product` is not
recognized — the extractor returns no object, where the claim's third
block shape requires the product to be found. -/
theorem extract_json_ld_graph_counterexample :
    (getField
        [("@context".data, Json.str "https://schema.org".data),
         ("@graph".data, Json.arr [.obj [("@type".data, Json.str "Product".data)]])]
        "@graph".data =
      some (Json.arr [.obj [("@type".data, Json.str "Product".data)]])) ∧
    typeIsProduct (pyGet [("@type".data, Json.str "Product".data)] "@type".data) = true ∧
    extract_json_ld
        [some (.obj [("@context".data, Json.str "https://schema.org".data),
                     ("@graph".data, Json.arr [.obj [("@type".data, Json.str "Product".data)]])])] =
      .ok none :=
  ⟨rfl, by decide, rfl⟩

/-! ## Size collection and sorting (C5) -/

theorem lexLe_total (a b : Str) : lexLe a b = true ∨ lexLe b a = true := by
  induction a generalizing b with
  | nil => left; rfl
  | cons x as ih =>
    cases b with
    | nil => right; rfl
    | cons y bs =>
      by_cases hxy : x = y
      · subst hxy
        simp only [lexLe, if_pos rfl]
        exact ih bs
      · rcases lt_or_gt_of_ne (show x ≠ y from hxy) with hlt | hgt
        · left
          simp [lexLe, hxy, hlt]
        · right
          simp only [lexLe, if_neg (Ne.symm hxy)]
          exact decide_eq_true hgt

theorem lexLe_trans {a b c : Str} (hab : lexLe a b = true) (hbc : lexLe b c = true) :
    lexLe a c = true := by
  induction a generalizing b c with
  | nil => rfl
  | cons x as ih =>
    cases b with
    | nil => cases hab
    | cons y bs =>
      cases c with
      | nil => cases hbc
      | cons z cs =>
        simp only [lexLe] at hab hbc ⊢
        by_cases hxy : x = y
        · subst hxy
          rw [if_pos rfl] at hab
          by_cases hyz : x = z
          · subst hyz
            rw [if_pos rfl] at hbc ⊢
            exact ih hab hbc
          · rw [if_neg hyz] at hbc ⊢
            exact hbc
        · rw [if_neg hxy] at hab
          have hxy' : x < y := of_decide_eq_true hab
          by_cases hyz : y = z
          · subst hyz
            rw [if_neg hxy]
            exact decide_eq_true hxy'
          · have hyz' : y < z := of_decide_eq_true (by rwa [if_neg hyz] at hbc)
            have hxz : x < z := lt_trans hxy' hyz'
            rw [if_neg (ne_of_lt hxz)]
            exact decide_eq_true hxz

theorem collectSizes_pairwise :
    ∀ (vlist : List Json) (acc out : List Json),
      collectSizes vlist acc = .ok out →
      acc.Pairwise (fun a b => jsonEq a b = false) →
      out.Pairwise (fun a b => jsonEq a b = false) := by
  intro vlist
  induction vlist with
  | nil =>
    intro acc out h hp
    cases h
    exact hp
  | cons v rest ih =>
    intro acc out h hp
    match v with
    | .obj vf =>
      simp only [collectSizes] at h
      split at h
      · rename_i hcond
        refine ih _ _ h ?_
        have hmem : jsonMem (pyGet vf "size".data) acc = false := by
          have := (Bool.and_eq_true _ _).mp hcond
          cases hm : jsonMem (pyGet vf "size".data) acc with
          | false => rfl
          | true => rw [hm] at this; cases this.2
        rw [List.pairwise_append]
        refine ⟨hp, by simp, ?_⟩
        intro a ha b hb
        simp only [List.mem_singleton] at hb
        subst hb
        have := List.any_eq_false.mp (by simpa [jsonMem] using hmem)
        exact Bool.eq_false_iff.mpr (this a ha)
      · exact ih _ _ h hp
    | .null => cases h
    | .bool w => cases h
    | .num w => cases h
    | .str w => cases h
    | .arr w => cases h

/-- If `int()` succeeds on a string-valued JSON scalar it is a
`ValueError`-free key; a failing string raises exactly `ValueError`. -/
theorem pyIntOfJson_str_fail {j : Json} (hstr : isJsonStr j = true)
    (hfail : (pyIntOfJson j).isOk = false) :
    pyIntOfJson j = .error .valueError := by
  cases j with
  | str s =>
    cases hp : pyIntStr s with
    | some n =>
      rw [show pyIntOfJson (.str s) = .ok n by simp [pyIntOfJson, hp]] at hfail
      exact Bool.noConfusion hfail
    | none => simp [pyIntOfJson, hp]
  | null => cases hstr
  | bool b => cases hstr
  | num n => cases hstr
  | arr l => cases hstr
  | obj f => cases hstr

/-- The size-decoration function of `sortSizes`. -/
theorem sizes_mapM_ok {sizes : List Json}
    (h : ∀ j ∈ sizes, (pyIntOfJson j).isOk = true) :
    sizes.mapM (fun s => (pyIntOfJson s).map fun k => (k, s)) =
      .ok (sizes.map fun s => (sizeIntKey s, s)) := by
  induction sizes with
  | nil => rfl
  | cons x xs ih =>
    have hx := h x (by simp)
    cases hpx : pyIntOfJson x with
    | error e => rw [hpx] at hx; cases hx
    | ok k =>
      have hkey : sizeIntKey x = k := by
        simp [sizeIntKey, hpx, Except.toOption]
      rw [List.mapM_cons, ih fun j hj => h j (by simp [hj]), List.map_cons, hkey, hpx]
      rfl

theorem sizes_mapM_valueError {sizes : List Json}
    (hstr : ∀ j ∈ sizes, isJsonStr j = true)
    (hfail : ∃ j ∈ sizes, (pyIntOfJson j).isOk = false) :
    sizes.mapM (fun s => (pyIntOfJson s).map fun k => (k, s)) =
      .error .valueError := by
  induction sizes with
  | nil => simp at hfail
  | cons x xs ih =>
    rw [List.mapM_cons]
    cases hpx : (pyIntOfJson x).isOk with
    | false =>
      rw [pyIntOfJson_str_fail (hstr x (by simp)) hpx]
      rfl
    | true =>
      cases hx : pyIntOfJson x with
      | error e => rw [hx] at hpx; cases hpx
      | ok k =>
        obtain ⟨j, hj, hjf⟩ := hfail
        simp only [List.mem_cons] at hj
        rcases hj with rfl | hj
        · rw [hx] at hjf; cases hjf
        · rw [ih (fun j hj => hstr j (by simp [hj])) ⟨j, hj, hjf⟩]
          rfl

theorem exceptBindOk {ε α β : Type} (a : α) (f : α → Except ε β) :
    (Except.ok a : Except ε α) >>= f = f a := rfl

theorem extract_sizes_eq (fields : JsonObj) (vlist sizes out : List Json)
    (hf : fields.isEmpty = false)
    (hv : getField fields "hasVariant".data = some (.arr vlist))
    (hc : collectSizes vlist [] = .ok sizes)
    (hsort : sortSizes sizes = .ok out)
    (hne : out.isEmpty = false) :
    extract_sizes (some fields) = .ok (some out) := by
  simp only [extract_sizes, hf, Bool.false_eq_true, if_false, hv, hc, hsort,
    exceptBindOk, hne]
  rfl

/-- C5: for a truthy product-group payload with a variant list, the
resolved sizes are the de-duplicated (under Python `==`) collected
declared sizes; when `int()` succeeds on every collected size the result
is a permutation of them that is numerically sorted by the `int()` key,
and when every collected size is a string and some size does not parse,
the result is a permutation sorted lexicographically instead. -/
theorem extract_sizes_claim (fields : JsonObj) (vlist sizes : List Json)
    (hf : fields.isEmpty = false)
    (hv : getField fields "hasVariant".data = some (.arr vlist))
    (hc : collectSizes vlist [] = .ok sizes)
    (hs : sizes.isEmpty = false) :
    sizes.Pairwise (fun a b => jsonEq a b = false) ∧
    ((∀ j ∈ sizes, (pyIntOfJson j).isOk = true) →
      ∃ out, extract_sizes (some fields) = .ok (some out) ∧ out.Perm sizes ∧
        out.Pairwise fun a b => sizeIntKey a ≤ sizeIntKey b) ∧
    ((∀ j ∈ sizes, isJsonStr j = true) →
      (∃ j ∈ sizes, (pyIntOfJson j).isOk = false) →
      ∃ out, extract_sizes (some fields) = .ok (some out) ∧ out.Perm sizes ∧
        out.Pairwise fun a b => lexLe (strContent a) (strContent b) = true) := by
  have hnodup := collectSizes_pairwise vlist [] sizes hc (by simp)
  refine ⟨hnodup, ?_, ?_⟩
  · intro hall
    set le : Int × Json → Int × Json → Bool := fun a b => decide (a.1 ≤ b.1) with hle
    set pairs := sizes.map fun s => (sizeIntKey s, s) with hpairs
    set out := (pairs.mergeSort le).map (·.2) with hout
    have hmapid : pairs.map (fun p : Int × Json => p.2) = sizes := by
      rw [hpairs, List.map_map]
      exact List.map_id sizes
    have hperm : out.Perm sizes := by
      rw [hout, ← hmapid]
      exact (List.mergeSort_perm pairs le).map _
    have hsort : sortSizes sizes = .ok out := by
      simp only [sortSizes, sizes_mapM_ok hall]
    have hne : out.isEmpty = false := by
      cases ho : out with
      | cons a tail => rfl
      | nil =>
        rw [ho] at hperm
        rw [hperm.symm.eq_nil] at hs
        cases hs
    refine ⟨out, extract_sizes_eq fields vlist sizes out hf hv hc hsort hne,
      hperm, ?_⟩
    have htrans : ∀ a b c : Int × Json, le a b = true → le b c = true →
        le a c = true := by
      intro a b c h1 h2
      exact decide_eq_true (le_trans (of_decide_eq_true h1) (of_decide_eq_true h2))
    have htotal : ∀ a b : Int × Json, (le a b || le b a) = true := by
      intro a b
      rcases Int.le_total a.1 b.1 with h | h
      · simp [hle, h]
      · simp [hle, h]
    have hsorted := List.sorted_mergeSort htrans htotal pairs
    rw [hout, List.pairwise_map]
    refine hsorted.imp_of_mem ?_
    intro p q hp hq hpq
    have hp' : p ∈ pairs := ((List.mergeSort_perm pairs le).mem_iff).mp hp
    have hq' : q ∈ pairs := ((List.mergeSort_perm pairs le).mem_iff).mp hq
    obtain ⟨sp, _, hsp⟩ := List.mem_map.mp hp'
    obtain ⟨sq, _, hsq⟩ := List.mem_map.mp hq'
    have hkp : p.1 = sizeIntKey p.2 := by rw [← hsp]
    have hkq : q.1 = sizeIntKey q.2 := by rw [← hsq]
    have := of_decide_eq_true hpq
    rw [hkp, hkq] at this
    exact this
  · intro hstr hfail
    set le : Json → Json → Bool := fun a b => lexLe (strContent a) (strContent b)
      with hle
    set out := sizes.mergeSort le with hout
    have hperm : out.Perm sizes := List.mergeSort_perm sizes le
    have hsort : sortSizes sizes = .ok out := by
      simp only [sortSizes, sizes_mapM_valueError hstr hfail]
      simp only [pySorted, List.all_eq_true.mpr hstr, if_true]
    have hne : out.isEmpty = false := by
      cases ho : out with
      | cons a tail => rfl
      | nil =>
        rw [ho] at hperm
        rw [hperm.symm.eq_nil] at hs
        cases hs
    refine ⟨out, extract_sizes_eq fields vlist sizes out hf hv hc hsort hne,
      hperm, ?_⟩
    have htrans : ∀ a b c : Json, le a b = true → le b c = true →
        le a c = true := fun a b c h1 h2 => lexLe_trans h1 h2
    have htotal : ∀ a b : Json, (le a b || le b a) = true := by
      intro a b
      rcases lexLe_total (strContent a) (strContent b) with h | h
      · simp [hle, h]
      · simp [hle, h]
    exact List.sorted_mergeSort htrans htotal sizes

/-- Witness for C5: sizes `["10", "2", "1"]` sort numerically and the
non-numeric mix `["10", "M", "2"]` sorts lexicographically. -/
theorem extract_sizes_claim_witness :
    (∃ out,
      extract_sizes (some [("hasVariant".data, Json.arr
          [.obj [("size".data, Json.str "10".data)],
           .obj [("size".data, Json.str "2".data)],
           .obj [("size".data, Json.str "1".data)]])]) = .ok (some out) ∧
      out.Perm [Json.str "10".data, Json.str "2".data, Json.str "1".data] ∧
      out.Pairwise fun a b => sizeIntKey a ≤ sizeIntKey b) ∧
    (∃ out,
      extract_sizes (some [("hasVariant".data, Json.arr
          [.obj [("size".data, Json.str "10".data)],
           .obj [("size".data, Json.str "M".data)],
           .obj [("size".data, Json.str "2".data)]])]) = .ok (some out) ∧
      out.Perm [Json.str "10".data, Json.str "M".data, Json.str "2".data] ∧
      out.Pairwise fun a b => lexLe (strContent a) (strContent b) = true) := by
  constructor
  · refine (extract_sizes_claim
      [("hasVariant".data, Json.arr
          [.obj [("size".data, Json.str "10".data)],
           .obj [("size".data, Json.str "2".data)],
           .obj [("size".data, Json.str "1".data)]])]
      [.obj [("size".data, Json.str "10".data)],
       .obj [("size".data, Json.str "2".data)],
       .obj [("size".data, Json.str "1".data)]]
      [Json.str "10".data, Json.str "2".data, Json.str "1".data]
      rfl rfl ?_ rfl).2.1 ?_
    · simp [collectSizes, pyGet, getField, pyTruthy, jsonMem, jsonEq]
    · intro j hj
      simp only [List.mem_cons, List.not_mem_nil, or_false] at hj
      rcases hj with rfl | rfl | rfl <;> rfl
  · refine (extract_sizes_claim
      [("hasVariant".data, Json.arr
          [.obj [("size".data, Json.str "10".data)],
           .obj [("size".data, Json.str "M".data)],
           .obj [("size".data, Json.str "2".data)]])]
      [.obj [("size".data, Json.str "10".data)],
       .obj [("size".data, Json.str "M".data)],
       .obj [("size".data, Json.str "2".data)]]
      [Json.str "10".data, Json.str "M".data, Json.str "2".data]
      rfl rfl ?_ rfl).2.2 ?_ ?_
    · simp [collectSizes, pyGet, getField, pyTruthy, jsonMem, jsonEq]
    · intro j hj
      simp only [List.mem_cons, List.not_mem_nil, or_false] at hj
      rcases hj with rfl | rfl | rfl <;> rfl
    · exact ⟨Json.str "M".data, by simp, rfl⟩

/-! ## Stage reply parsers (C8) -/

theorem getField_append_ne {resp : JsonObj} {k key : Str} {v : Json}
    (hne : k ≠ key) :
    getField (resp ++ [(k, v)]) key = getField resp key := by
  induction resp with
  | nil => simp [getField, hne]
  | cons p rest ih =>
    obtain ⟨k', w⟩ := p
    simp only [List.cons_append, getField]
    split
    · rfl
    · exact ih

theorem parse_attributes_congr {r r' : JsonObj}
    (h : ∀ key ∈ attrs_keys, getField r key = getField r' key) :
    parse_attributes r = parse_attributes r' := by
  have h1 := h "sleeve_type".data (by simp [attrs_keys])
  have h2 := h "neckline".data (by simp [attrs_keys])
  have h3 := h "fit".data (by simp [attrs_keys])
  have h4 := h "closure_type".data (by simp [attrs_keys])
  have h5 := h "pattern".data (by simp [attrs_keys])
  have h6 := h "heel_height".data (by simp [attrs_keys])
  have h7 := h "toe_style".data (by simp [attrs_keys])
  have h8 := h "uv_protection".data (by simp [attrs_keys])
  have h9 := h "material_parsed".data (by simp [attrs_keys])
  have h10 := h "care_instructions".data (by simp [attrs_keys])
  have h11 := h "key_features".data (by simp [attrs_keys])
  simp only [parse_attributes, pyGet, pyGetD, h1, h2, h3, h4, h5, h6, h7, h8,
    h9, h10, h11]

theorem parse_categorization_congr {r r' : JsonObj}
    (h : ∀ key ∈ categ_keys, getField r key = getField r' key) :
    parse_categorization r = parse_categorization r' := by
  have h1 := h "occasions".data (by simp [categ_keys])
  have h2 := h "seasons".data (by simp [categ_keys])
  have h3 := h "style_tags".data (by simp [categ_keys])
  have h4 := h "target_audience".data (by simp [categ_keys])
  have h5 := h "search_keywords".data (by simp [categ_keys])
  have h6 := h "complementary_categories".data (by simp [categ_keys])
  simp only [parse_categorization, pyGet, pyGetD, h1, h2, h3, h4, h5, h6]

theorem parse_content_congr {r r' : JsonObj}
    (h : ∀ key ∈ content_keys, getField r key = getField r' key) :
    parse_content r = parse_content r' := by
  have h1 := h "seo_title".data (by simp [content_keys])
  have h2 := h "meta_description".data (by simp [content_keys])
  have h3 := h "short_description".data (by simp [content_keys])
  have h4 := h "marketing_highlights".data (by simp [content_keys])
  have h5 := h "image_alt_text".data (by simp [content_keys])
  simp only [parse_content, pyGet, pyGetD, h1, h2, h3, h4, h5]

/-- C8: each stage parser returns a sub-record without raising whenever
the nested-object keys (when present and truthy) are dict-shaped; a
reply with every key missing produces `None`/empty-sequence defaults;
and extra unrecognized keys never change any parser's result. -/
theorem stage_parsers_defensive :
    (∀ resp, (pyTruthy (pyGet resp "material_parsed".data) = true →
        ∃ f, pyGet resp "material_parsed".data = .obj f) →
      ∃ a, parse_attributes resp = .ok a) ∧
    (∀ resp, (pyTruthy (pyGetD resp "target_audience".data (.obj [])) = true →
        ∃ f, pyGetD resp "target_audience".data (.obj []) = .obj f) →
      ∃ c, parse_categorization resp = .ok c) ∧
    (parse_attributes [] =
      .ok ⟨.null, .null, .null, .null, .null, .null, .null, .null, none,
        .null, .arr []⟩) ∧
    (parse_categorization [] =
      .ok ⟨.arr [], .arr [], .arr [], none, .arr [], .arr []⟩) ∧
    (parse_content [] = ⟨.null, .null, .null, .arr [], .null⟩) ∧
    (∀ resp k v, k ∉ attrs_keys →
      parse_attributes (resp ++ [(k, v)]) = parse_attributes resp) ∧
    (∀ resp k v, k ∉ categ_keys →
      parse_categorization (resp ++ [(k, v)]) = parse_categorization resp) ∧
    (∀ resp k v, k ∉ content_keys →
      parse_content (resp ++ [(k, v)]) = parse_content resp) := by
  refine ⟨?_, ?_, rfl, rfl, rfl, ?_, ?_, ?_⟩
  · intro resp h
    cases hp : parse_attributes resp with
    | ok a => exact ⟨a, rfl⟩
    | error e =>
      exfalso
      cases ht : pyTruthy (pyGet resp "material_parsed".data) with
      | false => simp [parse_attributes, ht, exceptBindOk] at hp
      | true =>
        obtain ⟨f, hf⟩ := h ht
        rw [hf] at ht
        simp [parse_attributes, hf, ht, exceptBindOk] at hp
  · intro resp h
    cases hp : parse_categorization resp with
    | ok c => exact ⟨c, rfl⟩
    | error e =>
      exfalso
      cases ht : pyTruthy (pyGetD resp "target_audience".data (.obj [])) with
      | false => simp [parse_categorization, ht, exceptBindOk] at hp
      | true =>
        obtain ⟨f, hf⟩ := h ht
        rw [hf] at ht
        simp [parse_categorization, hf, ht, exceptBindOk] at hp
  · intro resp k v hk
    exact parse_attributes_congr fun key hkey =>
      getField_append_ne fun he => hk (he ▸ hkey)
  · intro resp k v hk
    exact parse_categorization_congr fun key hkey =>
      getField_append_ne fun he => hk (he ▸ hkey)
  · intro resp k v hk
    exact parse_content_congr fun key hkey =>
      getField_append_ne fun he => hk (he ▸ hkey)

/-- Witness for C8: a partial attributes reply with a dict-shaped
`material_parsed` and an extra key parses without raising, and an extra
key appended to a categorization reply leaves its parse unchanged. -/
theorem stage_parsers_defensive_witness :
    (∃ a, parse_attributes
        [("material_parsed".data, Json.obj [("primary".data, Json.str "algodao".data)]),
         ("extra".data, Json.num 7)] = .ok a) ∧
    parse_categorization
        ([("occasions".data, Json.arr [Json.str "festa".data])] ++
          [("extra".data, Json.num 7)]) =
      parse_categorization [("occasions".data, Json.arr [Json.str "festa".data])] := by
  constructor
  · exact stage_parsers_defensive.1 _ fun _ => ⟨_, rfl⟩
  · exact stage_parsers_defensive.2.2.2.2.2.2.1 _ _ _ (by decide)

/-! ## Original price (C7) -/

/-- C7: `original_price` is resolved only from `offers.highPrice` when
`offers` is a single dict, and emitted with the fixed `R$` prefix only
when its `str()` form differs from that of `offers.lowPrice` (defaulted
to the empty string); with no payload, no `offers` key, a list-shaped
`offers`, an absent (or falsy) `highPrice`, or string-equal high/low
prices, it is absent. -/
theorem original_price_claim :
    (extract_original_price none = none) ∧
    (∀ fields, getField fields "offers".data = none →
      extract_original_price (some fields) = none) ∧
    (∀ fields l, getField fields "offers".data = some (.arr l) →
      extract_original_price (some fields) = none) ∧
    (∀ fields ofields, getField fields "offers".data = some (.obj ofields) →
      pyTruthy (pyGet ofields "highPrice".data) = false →
      extract_original_price (some fields) = none) ∧
    (∀ fields ofields, getField fields "offers".data = some (.obj ofields) →
      pyStr (pyGet ofields "highPrice".data) =
        pyStr (pyGetD ofields "lowPrice".data (.str [])) →
      extract_original_price (some fields) = none) ∧
    (∀ fields s, extract_original_price (some fields) = some s →
      ∃ ofields hp, getField fields "offers".data = some (.obj ofields) ∧
        getField ofields "highPrice".data = some hp ∧ pyTruthy hp = true ∧
        pyStr hp ≠ pyStr (pyGetD ofields "lowPrice".data (.str [])) ∧
        s = "R$".data ++ pyStr hp) := by
  refine ⟨rfl, ?_, ?_, ?_, ?_, ?_⟩
  · intro fields h
    simp [extract_original_price, h]
  · intro fields l h
    simp [extract_original_price, h]
  · intro fields ofields h htr
    simp [extract_original_price, h, htr]
  · intro fields ofields h heq
    simp [extract_original_price, h, heq]
  · intro fields s h
    simp only [extract_original_price] at h
    split at h
    · cases h
    · split at h
      · cases h
      · rename_i ofields hoff
        split at h
        · rename_i hcond
          cases h
          have hconj := (Bool.and_eq_true _ _).mp hcond
          have htr := hconj.1
          have hneq : pyStr (pyGet ofields "highPrice".data) ≠
              pyStr (pyGetD ofields "lowPrice".data (.str [])) :=
            of_decide_eq_true hconj.2
          cases hget : getField ofields "highPrice".data with
          | none =>
            rw [show pyGet ofields "highPrice".data = .null by
              simp [pyGet, hget]] at htr
            cases htr
          | some hp =>
            have hpy : pyGet ofields "highPrice".data = hp := by simp [pyGet, hget]
            rw [hpy] at htr hneq
            exact ⟨ofields, hp, hoff, hget, htr, hneq, by rw [hpy]⟩
        · cases h
      · cases h

/-- Witness for C7: equal high/low prices are suppressed; an absent
`lowPrice` compares against the empty string, so a lone `highPrice` is
emitted with the `R$` prefix. -/
theorem original_price_claim_witness :
    extract_original_price
        (some [("offers".data,
          Json.obj [("highPrice".data, Json.str "99.90".data),
                    ("lowPrice".data, Json.str "99.90".data)])]) = none ∧
    extract_original_price
        (some [("offers".data, Json.obj [("highPrice".data, Json.num 150)])]) =
      some ("R$150".data) := by
  constructor
  · exact original_price_claim.2.2.2.2.1 _ _ rfl (by decide)
  · rfl

/-- C4: `has_discount()` is true iff `original_price` is present (non-`None`)
and string-unequal to `price`; it is false when `original_price` is absent
or when the two are equal (in particular when `price` is absent and
`original_price` is too). -/
theorem has_discount_iff (p : Product) :
    p.has_discount = true ↔ ∃ s, p.original_price = some s ∧ some s ≠ p.price := by
  unfold Product.has_discount
  cases h : p.original_price with
  | none => simp [h]
  | some s =>
    simp only [h, Option.isSome_some, Bool.true_and, decide_eq_true_eq]
    constructor
    · intro hne; exact ⟨s, rfl, hne⟩
    · rintro ⟨t, ht, hne⟩
      cases ht
      exact hne

/-- C10: a product constructed with `images`, `sizes` and `specifications`
absent has empty-container accessors (never `None`-like), `to_dict`
renders those empty containers back as `None`, and `set_enriched_data`
changes only the `enriched_data` slot, preserving every other field of
any product. -/
theorem product_container_normalization
    (name : String) (price original_price description image_url : Option String)
    (url sku brand category color material : Option String) :
    (let p := Product.make name price original_price description image_url none
        url sku brand category color none material none
     p.images = [] ∧ p.sizes = [] ∧ p.specifications = [] ∧
       p.to_dict.images = none ∧ p.to_dict.sizes = none ∧
       p.to_dict.specifications = none) ∧
    (∀ (p : Product) (d : List (String × String)),
      (p.set_enriched_data d).enriched_data = some d ∧
      (p.set_enriched_data d).name = p.name ∧
      (p.set_enriched_data d).price = p.price ∧
      (p.set_enriched_data d).original_price = p.original_price ∧
      (p.set_enriched_data d).description = p.description ∧
      (p.set_enriched_data d).image_url = p.image_url ∧
      (p.set_enriched_data d).images = p.images ∧
      (p.set_enriched_data d).url = p.url ∧
      (p.set_enriched_data d).sku = p.sku ∧
      (p.set_enriched_data d).brand = p.brand ∧
      (p.set_enriched_data d).category = p.category ∧
      (p.set_enriched_data d).color = p.color ∧
      (p.set_enriched_data d).sizes = p.sizes ∧
      (p.set_enriched_data d).material = p.material ∧
      (p.set_enriched_data d).specifications = p.specifications) := by
  constructor
  · simp [Product.make, Product.to_dict]
  · intro p d
    simp [Product.set_enriched_data]

/-! ## String lemmas for the JSON normalizer (C6) -/

theorem pyLStrip_eq_self {s : Str} {c : Char} (hh : s.head? = some c)
    (hc : isPySpace c = false) : pyLStrip s = s := by
  cases s with
  | nil => cases hh
  | cons x rest =>
    cases hh
    simp [pyLStrip, List.dropWhile_cons, hc]

theorem pyRStrip_eq_self {s : Str} {c : Char} (hl : s.getLast? = some c)
    (hc : isPySpace c = false) : pyRStrip s = s := by
  unfold pyRStrip
  rw [show s.reverse.dropWhile isPySpace = s.reverse from ?_, List.reverse_reverse]
  cases hr : s.reverse with
  | nil => rfl
  | cons x rest =>
    have : s.reverse.head? = some c := by rw [List.head?_reverse, hl]
    rw [hr] at this
    cases this
    simp [List.dropWhile_cons, hc]

theorem pyRStrip_reverse_eq (s : Str) :
    pyRStrip s = (s.reverse.dropWhile isPySpace).reverse := rfl

theorem pyRStrip_ne_nil_iff {t : Str} :
    pyRStrip t ≠ [] ↔ t.reverse.dropWhile isPySpace ≠ [] := by
  rw [pyRStrip_reverse_eq]
  constructor
  · intro h h'
    rw [h'] at h
    exact h rfl
  · intro h h'
    exact h (by simpa using congrArg List.reverse h')

theorem pyRStrip_append {a t : Str} (h : pyRStrip t ≠ []) :
    pyRStrip (a ++ t) = a ++ pyRStrip t := by
  have hne : (t.reverse.dropWhile isPySpace).isEmpty = false := by
    have := pyRStrip_ne_nil_iff.mp h
    cases he : (t.reverse.dropWhile isPySpace).isEmpty
    · rfl
    · exact absurd (List.isEmpty_iff.mp he) this
  rw [pyRStrip_reverse_eq, List.reverse_append, List.dropWhile_append, hne]
  simp [pyRStrip_reverse_eq]

theorem pyRStrip_append_ws {t : Str} {c : Char} (hc : isPySpace c = true) :
    pyRStrip (t ++ [c]) = pyRStrip t := by
  rw [pyRStrip_reverse_eq, pyRStrip_reverse_eq, List.reverse_append]
  simp [List.dropWhile_cons, hc]

theorem pyLStrip_append_all_ws {w x : Str} (h : ∀ c ∈ w, isPySpace c = true) :
    pyLStrip (w ++ x) = pyLStrip x := by
  unfold pyLStrip
  rw [List.dropWhile_append, List.dropWhile_eq_nil_iff.mpr h]
  simp

theorem pyLStrip_head_not_ws {s : Str} {c : Char}
    (h : (pyLStrip s).head? = some c) : isPySpace c = false := by
  induction s with
  | nil => cases h
  | cons x rest ih =>
    by_cases hx : isPySpace x = true
    · rw [show pyLStrip (x :: rest) = pyLStrip rest by
        simp [pyLStrip, List.dropWhile_cons, hx]] at h
      exact ih h
    · rw [show pyLStrip (x :: rest) = x :: rest by
        simp [pyLStrip, List.dropWhile_cons]
        intro hc
        exact absurd hc hx] at h
      cases h
      exact Bool.eq_false_iff.mpr hx

theorem pyRStrip_getLast_not_ws {s : Str} {c : Char}
    (h : (pyRStrip s).getLast? = some c) : isPySpace c = false := by
  have : (pyLStrip s.reverse).head? = some c := by
    rw [show pyLStrip s.reverse = (pyRStrip s).reverse by
      rw [pyRStrip_reverse_eq, List.reverse_reverse]; rfl]
    rw [List.head?_reverse, h]
  exact pyLStrip_head_not_ws this

theorem pyRStrip_cons_head {y : Char} {tail : Str} (hy : isPySpace y = false) :
    ∃ z, pyRStrip (y :: tail) = y :: z := by
  rw [pyRStrip_reverse_eq, show (y :: tail).reverse = tail.reverse ++ [y] by simp,
    List.dropWhile_append]
  cases he : (tail.reverse.dropWhile isPySpace).isEmpty
  · exact ⟨(tail.reverse.dropWhile isPySpace).reverse, by simp⟩
  · exact ⟨[], by simp [List.dropWhile_cons, hy]⟩

theorem pyStrip_head_not_ws {s : Str} {c : Char}
    (h : (pyStrip s).head? = some c) : isPySpace c = false := by
  unfold pyStrip at h
  cases hr : pyRStrip (pyLStrip s) with
  | nil => rw [hr] at h; cases h
  | cons x rest =>
    rw [hr] at h
    cases h
    cases hl : pyLStrip s with
    | nil =>
      rw [hl] at hr
      cases hr
    | cons y tail =>
      have hy : isPySpace y = false := pyLStrip_head_not_ws (by rw [hl]; rfl)
      obtain ⟨z, hz⟩ := @pyRStrip_cons_head y tail hy
      rw [hl, hz] at hr
      cases hr
      exact hy

theorem pyStrip_getLast_not_ws {s : Str} {c : Char}
    (h : (pyStrip s).getLast? = some c) : isPySpace c = false :=
  pyRStrip_getLast_not_ws (s := pyLStrip s) h

theorem pyStrip_idem (s : Str) : pyStrip (pyStrip s) = pyStrip s := by
  cases hs : pyStrip s with
  | nil => rfl
  | cons x rest =>
    have hhead : isPySpace x = false := pyStrip_head_not_ws (by rw [hs]; rfl)
    have hlast : ∃ c, (x :: rest).getLast? = some c ∧ isPySpace c = false := by
      cases hl : (x :: rest).getLast? with
      | none => exact absurd hl (by simp)
      | some c =>
        exact ⟨c, rfl, pyStrip_getLast_not_ws (by rw [hs, hl])⟩
    obtain ⟨c, hl, hcws⟩ := hlast
    unfold pyStrip
    rw [pyLStrip_eq_self (s := x :: rest) (c := x) rfl hhead,
      pyRStrip_eq_self hl hcws]

theorem pyRStrip_nil_of_all_ws {t : Str} (h : ∀ c ∈ t, isPySpace c = true) :
    pyRStrip t = [] := by
  rw [pyRStrip_reverse_eq, List.dropWhile_eq_nil_iff.mpr fun c hc =>
    h c (List.mem_reverse.mp hc)]
  rfl

theorem pyStrip_of_pyRStrip (t : Str) : pyStrip (pyRStrip t) = pyStrip t := by
  have hsplit : t.takeWhile isPySpace ++ pyLStrip t = t :=
    List.takeWhile_append_dropWhile isPySpace t
  have hws : ∀ c ∈ t.takeWhile isPySpace, isPySpace c = true :=
    fun c hc => List.mem_takeWhile_imp hc
  cases hr : pyLStrip t with
  | nil =>
    have hallws : ∀ c ∈ t, isPySpace c = true := by
      intro c hc
      rw [← hsplit, hr, List.append_nil] at hc
      exact hws c hc
    rw [pyRStrip_nil_of_all_ws hallws]
    unfold pyStrip
    rw [hr]
    rfl
  | cons y tail =>
    have hy : isPySpace y = false := pyLStrip_head_not_ws (by rw [hr]; rfl)
    obtain ⟨z, hz⟩ := @pyRStrip_cons_head y tail hy
    have hrne : pyRStrip (y :: tail) ≠ [] := by rw [hz]; simp
    have hidem : pyRStrip (pyRStrip (y :: tail)) = pyRStrip (y :: tail) := by
      cases hlast : (pyRStrip (y :: tail)).getLast? with
      | none => rw [hz] at hlast; exact absurd hlast (by simp)
      | some c => exact pyRStrip_eq_self hlast (pyRStrip_getLast_not_ws hlast)
    have h1 : pyRStrip t = t.takeWhile isPySpace ++ pyRStrip (y :: tail) := by
      conv_lhs => rw [← hsplit, hr]
      exact pyRStrip_append hrne
    rw [h1]
    unfold pyStrip
    rw [pyLStrip_append_all_ws hws, hr, hz,
      pyLStrip_eq_self (s := y :: z) (c := y) rfl hy, ← hz, hidem]

theorem dropThroughNewline_spec {a X : Str} (h : '\n' ∉ a) :
    dropThroughNewline (a ++ '\n' :: X) = X := by
  unfold dropThroughNewline
  rw [if_pos (by simp [List.contains, List.elem_eq_mem])]
  rw [List.dropWhile_append, List.dropWhile_eq_nil_iff.mpr
    (fun c hc => by simp; intro he; subst he; exact h hc)]
  simp [List.dropWhile_cons]

theorem startsWithFence_head {x : Str} (h : startsWithFence x = true) :
    x.head? = some backtick := by
  match x with
  | [] => cases h
  | [c1] => cases h
  | [c1, c2] => cases h
  | c1 :: c2 :: c3 :: rest =>
    simp only [startsWithFence, Bool.and_eq_true, decide_eq_true_eq] at h
    rw [h.1.1]
    rfl

theorem startsWithFence_false_of_head {x : Str} {c : Char} (hh : x.head? = some c)
    (hc : c ≠ backtick) : startsWithFence x = false := by
  cases hf : startsWithFence x
  · rfl
  · rw [startsWithFence_head hf] at hh
    cases hh
    exact absurd rfl hc

theorem endsWithTicks_getLast {s : Str} (h : endsWithTicks s = true) :
    s.getLast? = some backtick := by
  unfold endsWithTicks at h
  rw [← List.head?_reverse]
  exact startsWithFence_head h

theorem endsWithTicks_false_of_getLast {s : Str} {c : Char}
    (hl : s.getLast? = some c) (hc : c ≠ backtick) : endsWithTicks s = false := by
  cases hf : endsWithTicks s
  · rfl
  · rw [endsWithTicks_getLast hf] at hl
    cases hl
    exact absurd rfl hc

theorem endsWithTicks_concat (y : Str) :
    endsWithTicks (y ++ [backtick, backtick, backtick]) = true := by
  unfold endsWithTicks
  rw [List.reverse_append]
  show startsWithFence (backtick :: backtick :: backtick :: y.reverse) = true
  simp [startsWithFence]

theorem dropLast3_concat (y : Str) (c1 c2 c3 : Char) :
    dropLast3 (y ++ [c1, c2, c3]) = y := by
  unfold dropLast3
  rw [List.length_append]
  show List.take (y.length + 3 - 3) (y ++ [c1, c2, c3]) = y
  rw [Nat.add_sub_cancel]
  exact List.take_left y [c1, c2, c3]

/-! ## Parser lemmas for the JSON normalizer (C6) -/

theorem except_map_ok {ε α β : Type} {f : α → β} {x : Except ε α} {b : β}
    (h : x.map f = .ok b) : ∃ a, x = .ok a ∧ b = f a := by
  cases x with
  | error e => simp [Except.map] at h
  | ok a =>
    simp only [Except.map, Except.ok.injEq] at h
    exact ⟨a, rfl, h.symm⟩

theorem suffix_cons_of {r rest : Str} (c : Char) (h : r <:+ rest) :
    r <:+ c :: rest :=
  h.trans (List.suffix_cons c rest)

theorem skipJsonWs_suffix (s : Str) : skipJsonWs s <:+ s :=
  List.dropWhile_suffix _

theorem suffix_skipJsonWs {r x : Str} (h : r <:+ skipJsonWs x) : r <:+ x :=
  h.trans (skipJsonWs_suffix x)

theorem getLast?_of_suffix {l s : Str} (h : l <:+ s) (hne : l ≠ []) :
    s.getLast? = l.getLast? := by
  obtain ⟨pre, rfl⟩ := h
  exact List.getLast?_append_of_ne_nil pre hne

theorem parseNatDigits_spec {s : Str} {n : Nat} {r : Str}
    (h : parseNatDigits s = some (n, r)) :
    r = s.dropWhile Char.isDigit ∧ s.takeWhile Char.isDigit ≠ [] := by
  unfold parseNatDigits at h
  split at h
  · cases h
  · rename_i hne
    split at h
    · cases h
    · cases h
      refine ⟨rfl, ?_⟩
      intro hnil
      rw [show (s.takeWhile Char.isDigit).isEmpty = true from
        List.isEmpty_iff.mpr hnil] at hne
      cases hne rfl

theorem parseIntFrom_suffix {s : Str} {n : Int} {r : Str}
    (h : parseIntFrom s = .ok (n, r)) : r <:+ s := by
  match s with
  | [] => simp [parseIntFrom] at h
  | c :: rest =>
    simp only [parseIntFrom] at h
    split at h
    · cases hp : parseNatDigits rest with
      | none => rw [hp] at h; cases h
      | some p =>
        obtain ⟨np, rp⟩ := p
        rw [hp] at h
        cases h
        obtain ⟨hr, _⟩ := parseNatDigits_spec hp
        rw [hr]
        exact suffix_cons_of _ (List.dropWhile_suffix _)
    · cases hp : parseNatDigits (c :: rest) with
      | none => rw [hp] at h; cases h
      | some p =>
        obtain ⟨np, rp⟩ := p
        rw [hp] at h
        cases h
        obtain ⟨hr, _⟩ := parseNatDigits_spec hp
        rw [hr]
        exact List.dropWhile_suffix _

theorem parser_suffix : ∀ fuel : Nat,
    (∀ s content r, parseStringRest fuel s = .ok (content, r) → r <:+ s) ∧
    (∀ s v r, parseValue fuel s = .ok (v, r) → r <:+ s) ∧
    (∀ s acc j r, parseMembers fuel s acc = .ok (j, r) → r <:+ s) ∧
    (∀ s acc j r, parseElems fuel s acc = .ok (j, r) → r <:+ s) := by
  intro fuel
  induction fuel with
  | zero =>
    refine ⟨?_, ?_, ?_, ?_⟩
    · intro s content r h; simp [parseStringRest] at h
    · intro s v r h; simp [parseValue] at h
    · intro s acc j r h; simp [parseMembers] at h
    · intro s acc j r h; simp [parseElems] at h
  | succ fuel ih =>
    obtain ⟨ihS, ihV, ihM, ihE⟩ := ih
    refine ⟨?_, ?_, ?_, ?_⟩
    · intro s content r h
      match s with
      | [] => simp [parseStringRest] at h
      | c :: rest =>
        simp only [parseStringRest] at h
        split at h
        · cases h
          exact List.suffix_cons _ _
        · split at h
          · split at h
            · split at h
              · obtain ⟨p, hp, hb⟩ := except_map_ok h
                cases hb
                repeat apply suffix_cons_of
                exact ihS _ _ _ hp
              · cases h
            · split at h
              · obtain ⟨p, hp, hb⟩ := except_map_ok h
                cases hb
                repeat apply suffix_cons_of
                exact ihS _ _ _ hp
              · cases h
            · cases h
          · split at h
            · cases h
            · obtain ⟨p, hp, hb⟩ := except_map_ok h
              cases hb
              repeat apply suffix_cons_of
              exact ihS _ _ _ hp
    · intro s v r h
      match s with
      | [] => simp [parseValue] at h
      | c :: rest =>
        simp only [parseValue] at h
        split at h
        · obtain ⟨p, hp, hb⟩ := except_map_ok h
          cases hb
          exact suffix_cons_of _ (ihS _ _ _ hp)
        · split at h
          · split at h
            · rename_i heq
              cases h
              refine suffix_cons_of _ (suffix_skipJsonWs ?_)
              rw [heq]
              exact List.suffix_cons _ _
            · exact suffix_cons_of _ (suffix_skipJsonWs (ihM _ _ _ _ h))
          · split at h
            · split at h
              · rename_i heq
                cases h
                refine suffix_cons_of _ (suffix_skipJsonWs ?_)
                rw [heq]
                exact List.suffix_cons _ _
              · exact suffix_cons_of _ (suffix_skipJsonWs (ihE _ _ _ _ h))
            · split at h
              · split at h
                · cases h
                  repeat apply suffix_cons_of
                  exact List.suffix_refl _
                · cases h
              · split at h
                · split at h
                  · cases h
                    repeat apply suffix_cons_of
                    exact List.suffix_refl _
                  · cases h
                · split at h
                  · split at h
                    · cases h
                      repeat apply suffix_cons_of
                      exact List.suffix_refl _
                    · cases h
                  · obtain ⟨p, hp, hb⟩ := except_map_ok h
                    cases hb
                    exact parseIntFrom_suffix hp
    · intro s acc j r h
      match s with
      | [] => simp [parseMembers] at h
      | c :: rest =>
        simp only [parseMembers] at h
        split at h
        · split at h
          · cases h
          · split at h
            · split at h
              · cases h
              · split at h
                · rename_i heq4 x3 key r1 hS x2 r3 hC x1 v r4 hV x0 r6 hM
                  cases heq4
                  have s1 : r6 <:+ r4 :=
                    suffix_skipJsonWs (by rw [hM]; exact List.suffix_cons _ _)
                  have s2 : r3 <:+ r1 :=
                    suffix_skipJsonWs (by rw [hC]; exact List.suffix_cons _ _)
                  have s3 : r4 <:+ r3 := suffix_skipJsonWs (ihV _ _ _ hV)
                  exact suffix_cons_of _
                    ((((ihM _ _ _ _ h).trans (skipJsonWs_suffix _)).trans s1).trans
                      ((s3.trans s2).trans (ihS _ _ _ hS)))
                · rename_i heq4 x3 key r1 hS x2 r3 hC x1 v r4 hV x0 r6 hM
                  cases heq4
                  cases h
                  have s1 : r <:+ r4 :=
                    suffix_skipJsonWs (by rw [hM]; exact List.suffix_cons _ _)
                  have s2 : r3 <:+ r1 :=
                    suffix_skipJsonWs (by rw [hC]; exact List.suffix_cons _ _)
                  have s3 : r4 <:+ r3 := suffix_skipJsonWs (ihV _ _ _ hV)
                  exact suffix_cons_of _
                    (s1.trans ((s3.trans s2).trans (ihS _ _ _ hS)))
                · cases h
            · cases h
        · cases h
    · intro s acc j r h
      simp only [parseElems] at h
      split at h
      · cases h
      · split at h
        · rename_i x1 v r4 hV x0 r2 hM
          have s1 : r2 <:+ r4 :=
            suffix_skipJsonWs (by rw [hM]; exact List.suffix_cons _ _)
          exact (((ihE _ _ _ _ h).trans (skipJsonWs_suffix _)).trans s1).trans
            (ihV _ _ _ hV)
        · rename_i x1 v r4 hV x0 r2 hM
          cases h
          exact (suffix_skipJsonWs (by rw [hM]; exact List.suffix_cons _ _)).trans
            (ihV _ _ _ hV)
        · cases h

theorem ne_nil_of_getLast?_some {l : Str} {c : Char} (h : l.getLast? = some c) :
    l ≠ [] := by
  intro hn
  rw [hn] at h
  cases h

theorem getLast?_cons_of_ne_nil {c : Char} {l : Str} (h : l ≠ []) :
    (c :: l).getLast? = l.getLast? :=
  List.getLast?_append_of_ne_nil [c] h

theorem all_digits_getLast {l : Str} (hne : l.takeWhile Char.isDigit ≠ [])
    (heq : l.takeWhile Char.isDigit = l) :
    ∃ c, l.getLast? = some c ∧ c.isDigit = true := by
  cases hl : l.getLast? with
  | none =>
    rw [← heq] at hl
    rw [List.getLast?_eq_none_iff.mp hl] at hne
    cases hne rfl
  | some c =>
    refine ⟨c, rfl, ?_⟩
    have hmem : c ∈ l := List.mem_of_mem_getLast? (by rw [hl]; rfl)
    rw [← heq] at hmem
    exact List.mem_takeWhile_imp hmem

theorem parseIntFrom_getLast {s : Str} {n : Int}
    (h : parseIntFrom s = .ok (n, [])) :
    ∃ c, s.getLast? = some c ∧ c.isDigit = true := by
  match s with
  | [] => simp [parseIntFrom] at h
  | c :: rest =>
    simp only [parseIntFrom] at h
    split at h
    · cases hp : parseNatDigits rest with
      | none => rw [hp] at h; cases h
      | some p =>
        obtain ⟨np, rp⟩ := p
        rw [hp] at h
        cases h
        obtain ⟨hr, hne⟩ := parseNatDigits_spec hp
        have hrest : rest.takeWhile Char.isDigit = rest := by
          conv_rhs => rw [← List.takeWhile_append_dropWhile Char.isDigit rest]
          rw [← hr, List.append_nil]
        obtain ⟨d, hd, hdig⟩ := all_digits_getLast hne hrest
        have hrne : rest ≠ [] := by
          intro hnil
          rw [hnil] at hne
          simp at hne
        refine ⟨d, ?_, hdig⟩
        rw [getLast?_cons_of_ne_nil hrne, hd]
    · cases hp : parseNatDigits (c :: rest) with
      | none => rw [hp] at h; cases h
      | some p =>
        obtain ⟨np, rp⟩ := p
        rw [hp] at h
        cases h
        obtain ⟨hr, hne⟩ := parseNatDigits_spec hp
        have hrest : (c :: rest).takeWhile Char.isDigit = c :: rest := by
          conv_rhs => rw [← List.takeWhile_append_dropWhile Char.isDigit (c :: rest)]
          rw [← hr, List.append_nil]
        exact all_digits_getLast hne hrest

theorem skipJsonWs_cons_ne_nil {rest : Str} {c : Char} {r : Str}
    (heq : skipJsonWs rest = c :: r) : rest ≠ [] := by
  intro hn
  rw [hn] at heq
  cases heq

/-- The remaining-input suffix facts, instantiated. -/
theorem stringRest_suffix {fuel : Nat} {s content r : Str}
    (h : parseStringRest fuel s = .ok (content, r)) : r <:+ s :=
  (parser_suffix fuel).1 s content r h

theorem value_suffix {fuel : Nat} {s : Str} {v : Json} {r : Str}
    (h : parseValue fuel s = .ok (v, r)) : r <:+ s :=
  (parser_suffix fuel).2.1 s v r h

/-- The terminating character of each successful production when it
consumes its entire input: strings end at their closing quote, objects
at `}`, arrays at `]`, and every JSON value ends in a `goodEnd`
character. -/
theorem parser_getLast : ∀ fuel : Nat,
    (∀ s content, parseStringRest fuel s = .ok (content, []) →
      s.getLast? = some '"') ∧
    (∀ s v, parseValue fuel s = .ok (v, []) →
      ∃ c, s.getLast? = some c ∧ goodEnd c) ∧
    (∀ s acc j, parseMembers fuel s acc = .ok (j, []) →
      s.getLast? = some '}') ∧
    (∀ s acc j, parseElems fuel s acc = .ok (j, []) →
      s.getLast? = some ']') := by
  intro fuel
  induction fuel with
  | zero =>
    refine ⟨?_, ?_, ?_, ?_⟩
    · intro s content h; simp [parseStringRest] at h
    · intro s v h; simp [parseValue] at h
    · intro s acc j h; simp [parseMembers] at h
    · intro s acc j h; simp [parseElems] at h
  | succ fuel ih =>
    obtain ⟨ihS, ihV, ihM, ihE⟩ := ih
    refine ⟨?_, ?_, ?_, ?_⟩
    · intro s content h
      match s with
      | [] => simp [parseStringRest] at h
      | c :: rest =>
        simp only [parseStringRest] at h
        split at h
        · rename_i hc
          cases h
          simp [hc]
        · split at h
          · split at h
            · split at h
              · obtain ⟨⟨pc, pr⟩, hp, hb⟩ := except_map_ok h
                injection hb with hb1 hb2
                rw [show pr = [] from hb2.symm] at hp
                have hlast := ihS _ _ hp
                have hne := ne_nil_of_getLast?_some hlast
                rw [getLast?_cons_of_ne_nil (by simp),
                  getLast?_cons_of_ne_nil (by simp),
                  getLast?_cons_of_ne_nil (by simp),
                  getLast?_cons_of_ne_nil (by simp),
                  getLast?_cons_of_ne_nil (by simp),
                  getLast?_cons_of_ne_nil hne, hlast]
              · cases h
            · split at h
              · obtain ⟨⟨pc, pr⟩, hp, hb⟩ := except_map_ok h
                injection hb with hb1 hb2
                rw [show pr = [] from hb2.symm] at hp
                have hlast := ihS _ _ hp
                have hne := ne_nil_of_getLast?_some hlast
                rw [getLast?_cons_of_ne_nil (by simp),
                  getLast?_cons_of_ne_nil hne, hlast]
              · cases h
            · cases h
          · split at h
            · cases h
            · obtain ⟨⟨pc, pr⟩, hp, hb⟩ := except_map_ok h
              injection hb with hb1 hb2
              rw [show pr = [] from hb2.symm] at hp
              have hlast := ihS _ _ hp
              have hne := ne_nil_of_getLast?_some hlast
              rw [getLast?_cons_of_ne_nil hne, hlast]
    · intro s v h
      match s with
      | [] => simp [parseValue] at h
      | c :: rest =>
        simp only [parseValue] at h
        split at h
        · obtain ⟨⟨pc, pr⟩, hp, hb⟩ := except_map_ok h
          injection hb with hb1 hb2
          rw [show pr = [] from hb2.symm] at hp
          have hlast := ihS _ _ hp
          have hne := ne_nil_of_getLast?_some hlast
          refine ⟨'"', ?_, Or.inl rfl⟩
          rw [getLast?_cons_of_ne_nil hne, hlast]
        · split at h
          · split at h
            · rename_i heq
              cases h
              have hsub : skipJsonWs rest <:+ rest := skipJsonWs_suffix rest
              have hrest : rest.getLast? = some '}' := by
                rw [getLast?_of_suffix hsub (by rw [heq]; simp), heq]
                rfl
              refine ⟨'}', ?_, Or.inr (Or.inl rfl)⟩
              rw [getLast?_cons_of_ne_nil (skipJsonWs_cons_ne_nil heq), hrest]
            · have hlast := ihM _ _ _ h
              have hne := ne_nil_of_getLast?_some hlast
              have hrest : rest.getLast? = some '}' := by
                rw [getLast?_of_suffix (skipJsonWs_suffix rest) hne, hlast]
              refine ⟨'}', ?_, Or.inr (Or.inl rfl)⟩
              rw [getLast?_cons_of_ne_nil ?_, hrest]
              intro hnil
              rw [hnil] at hne
              exact hne rfl
          · split at h
            · split at h
              · rename_i heq
                cases h
                have hrest : rest.getLast? = some ']' := by
                  rw [getLast?_of_suffix (skipJsonWs_suffix rest)
                    (by rw [heq]; simp), heq]
                  rfl
                refine ⟨']', ?_, Or.inr (Or.inr (Or.inl rfl))⟩
                rw [getLast?_cons_of_ne_nil (skipJsonWs_cons_ne_nil heq), hrest]
              · have hlast := ihE _ _ _ h
                have hne := ne_nil_of_getLast?_some hlast
                have hrest : rest.getLast? = some ']' := by
                  rw [getLast?_of_suffix (skipJsonWs_suffix rest) hne, hlast]
                refine ⟨']', ?_, Or.inr (Or.inr (Or.inl rfl))⟩
                rw [getLast?_cons_of_ne_nil ?_, hrest]
                intro hnil
                rw [hnil] at hne
                exact hne rfl
            · split at h
              · split at h
                · cases h
                  exact ⟨'e', by simp, Or.inr (Or.inr (Or.inr (Or.inl rfl)))⟩
                · cases h
              · split at h
                · split at h
                  · cases h
                    exact ⟨'e', by simp, Or.inr (Or.inr (Or.inr (Or.inl rfl)))⟩
                  · cases h
                · split at h
                  · split at h
                    · cases h
                      exact ⟨'l', by simp,
                        Or.inr (Or.inr (Or.inr (Or.inr (Or.inl rfl))))⟩
                    · cases h
                  · obtain ⟨⟨pn, pr⟩, hp, hb⟩ := except_map_ok h
                    injection hb with hb1 hb2
                    rw [show pr = [] from hb2.symm] at hp
                    obtain ⟨d, hd, hdig⟩ := parseIntFrom_getLast hp
                    exact ⟨d, hd, Or.inr (Or.inr (Or.inr (Or.inr (Or.inr hdig))))⟩
    · intro s acc j h
      match s with
      | [] => simp [parseMembers] at h
      | c :: rest =>
        simp only [parseMembers] at h
        split at h
        · split at h
          · cases h
          · split at h
            · split at h
              · cases h
              · split at h
                · rename_i heq4 x3 key r1 hS x2 r3 hC x1 v r4 hV x0 r6 hM
                  cases heq4
                  have hlast := ihM _ _ _ h
                  have hne6 := ne_nil_of_getLast?_some hlast
                  have chain : skipJsonWs r6 <:+ '\"' :: rest := by
                    refine suffix_cons_of _ ?_
                    have s1 : r6 <:+ r4 :=
                      suffix_skipJsonWs (by rw [hM]; exact List.suffix_cons _ _)
                    have s2 : r3 <:+ r1 :=
                      suffix_skipJsonWs (by rw [hC]; exact List.suffix_cons _ _)
                    have s3 : r4 <:+ r3 := suffix_skipJsonWs (value_suffix hV)
                    exact (((skipJsonWs_suffix r6).trans s1).trans
                      ((s3.trans s2).trans (stringRest_suffix hS)))
                  rw [getLast?_of_suffix chain hne6, hlast]
                · rename_i heq4 x3 key r1 hS x2 r3 hC x1 v r4 hV x0 r6 hM
                  cases heq4
                  cases h
                  have chain : ('}' :: []) <:+ '\"' :: rest := by
                    refine suffix_cons_of _ ?_
                    have s1 : ('}' :: []) <:+ r4 := by
                      refine suffix_skipJsonWs ?_
                      rw [hM]
                    have s2 : r3 <:+ r1 :=
                      suffix_skipJsonWs (by rw [hC]; exact List.suffix_cons _ _)
                    have s3 : r4 <:+ r3 := suffix_skipJsonWs (value_suffix hV)
                    exact s1.trans ((s3.trans s2).trans (stringRest_suffix hS))
                  rw [getLast?_of_suffix chain (by simp)]
                  rfl
                · cases h
            · cases h
        · cases h
    · intro s acc j h
      simp only [parseElems] at h
      split at h
      · cases h
      · split at h
        · rename_i x1 v r4 hV x0 r2 hM
          have hlast := ihE _ _ _ h
          have hne2 := ne_nil_of_getLast?_some hlast
          have chain : skipJsonWs r2 <:+ s := by
            have s1 : r2 <:+ r4 :=
              suffix_skipJsonWs (by rw [hM]; exact List.suffix_cons _ _)
            exact ((skipJsonWs_suffix r2).trans s1).trans (value_suffix hV)
          rw [getLast?_of_suffix chain hne2, hlast]
        · rename_i x1 v r4 hV x0 r2 hM
          cases h
          have chain : (']' :: []) <:+ s := by
            have s1 : (']' :: []) <:+ r4 := by
              refine suffix_skipJsonWs ?_
              rw [hM]
            exact s1.trans (value_suffix hV)
          rw [getLast?_of_suffix chain (by simp)]
          rfl
        · cases h

/-- C1: if the stage at which the enrichment run aborts raised an
`AIGatewayException`, `EnrichProductUseCase.apply` returns the tagged
error result with `error_type = "ai_error"` (the AI-gateway kind,
`step = "ai_call"`), and the persistence collaborator's `save` is never
invoked — no partial enrichment is persisted or returned as success. -/
theorem enrich_ai_failure_aborts (run : EnrichRun) (product_id : Option Int)
    (now : Nat) (m : String)
    (h : firstStageExc run = some (.aiGateway m)) :
    enrichApply run product_id now =
      (.error "ai_error" m (some "ai_call"), false) := by
  unfold enrichApply
  unfold firstStageExc at h
  cases ha : run.attrsResult with
  | error e =>
    rw [ha] at h
    cases h
    rfl
  | ok a =>
    rw [ha] at h
    cases hb : run.categResult with
    | error e =>
      rw [hb] at h
      cases h
      rfl
    | ok b =>
      rw [hb] at h
      cases hc : run.contentResult with
      | error e =>
        rw [hc] at h
        cases h
        rfl
      | ok c =>
        rw [hc] at h
        cases h

/-- C3 (code bug): the cited fragments implement the claim — when no
selector matches an element (or none yields a truthy `href`) the
link-finding action raises `ProductNotFoundException`, and the use
case's `except` clause maps that exception to a `product_not_found`
tagged error carrying the original query — but the use case as wired
invokes its actions with mismatched arity, so every run raises
`TypeError` and `apply` returns an `unexpected_error` result instead;
the `product_not_found` path is unreachable. -/
theorem scrape_not_found_wiring_bug :
    (∀ query base_url,
      find_product_link_apply ⟨fun _ => none, fun _ _ => none⟩ base_url query =
        .error (.productNotFound query)) ∧
    (∀ query base_url,
      find_product_link_apply ⟨fun _ => some 0, fun _ _ => none⟩ base_url query =
        .error (.productNotFound query)) ∧
    (∀ query,
      excToScrapeError query (.productNotFound query) =
        .error "product_not_found" (notFoundMessage query) (some query)) ∧
    (∀ query,
      scrapeApplyAsWired query =
        .error "unexpected_error" scrapeArityErrorMessage (some query)) := by
  exact ⟨fun _ _ => rfl, fun _ _ => rfl, fun _ => rfl, fun _ => rfl⟩

/-- Witness for C1: a concrete run whose second (categorization) stage
raises an AI-gateway failure yields the `ai_error` result and no save,
even with a repository and product id present. -/
theorem enrich_ai_failure_aborts_witness :
    enrichApply
      { attrsResult := .ok ⟨.null, .null, .null, .null, .null, .null, .null,
          .null, none, .null, .arr []⟩
        categResult := .error (.aiGateway "Claude API error")
        contentResult := .ok ⟨.null, .null, .null, .arr [], .null⟩
        model_name := "claude-sonnet-4-20250514"
        save := id
        hasRepository := true } (some 7) 0 =
      (.error "ai_error" "Claude API error" (some "ai_call"), false) :=
  enrich_ai_failure_aborts _ (some 7) 0 "Claude API error" rfl

theorem parseIntFrom_digit {c : Char} {rest : Str} {p : Int × Str}
    (h : parseIntFrom (c :: rest) = .ok p) (hc : c ≠ '-') : c.isDigit = true := by
  simp only [parseIntFrom, if_neg hc] at h
  cases hq : parseNatDigits (c :: rest) with
  | none => rw [hq] at h; simp at h
  | some q =>
    obtain ⟨n', r'⟩ := q
    have hspec := parseNatDigits_spec hq
    by_cases hd : c.isDigit = true
    · exact hd
    · have hd' : c.isDigit = false := by
        cases hdd : c.isDigit
        · rfl
        · exact absurd hdd hd
      exact absurd (by simp [List.takeWhile_cons, hd'] :
        (c :: rest).takeWhile Char.isDigit = []) hspec.2

theorem value_head {fuel : Nat} {s : Str} {v : Json} {r : Str}
    (h : parseValue fuel s = .ok (v, r)) :
    ∃ c, s.head? = some c ∧ goodStart c := by
  cases fuel with
  | zero => simp [parseValue] at h
  | succ fuel =>
    cases s with
    | nil => simp [parseValue] at h
    | cons c rest =>
      refine ⟨c, rfl, ?_⟩
      by_cases h1 : c = '"'
      · exact Or.inl h1
      by_cases h2 : c = '{'
      · exact Or.inr (Or.inl h2)
      by_cases h3 : c = '['
      · exact Or.inr (Or.inr (Or.inl h3))
      by_cases h4 : c = 't'
      · exact Or.inr (Or.inr (Or.inr (Or.inl h4)))
      by_cases h5 : c = 'f'
      · exact Or.inr (Or.inr (Or.inr (Or.inr (Or.inl h5))))
      by_cases h6 : c = 'n'
      · exact Or.inr (Or.inr (Or.inr (Or.inr (Or.inr (Or.inl h6)))))
      by_cases h7 : c = '-'
      · exact Or.inr (Or.inr (Or.inr (Or.inr (Or.inr (Or.inr (Or.inl h7))))))
      · refine Or.inr (Or.inr (Or.inr (Or.inr (Or.inr (Or.inr (Or.inr ?_))))))
        simp only [parseValue, if_neg h1, if_neg h2, if_neg h3, if_neg h4,
          if_neg h5, if_neg h6] at h
        obtain ⟨p, hp, -⟩ := except_map_ok h
        exact parseIntFrom_digit hp h7

theorem isJsonWs_isPySpace {c : Char} (h : isJsonWs c = true) : isPySpace c = true := by
  simp only [isJsonWs, Bool.or_eq_true, decide_eq_true_eq] at h
  rcases h with ((h | h) | h) | h
  all_goals simp [isPySpace, h]

theorem skipJsonWs_pyStrip (t : Str) : skipJsonWs (pyStrip t) = pyStrip t := by
  cases hs : pyStrip t with
  | nil => rfl
  | cons x rest =>
    have hx : isPySpace x = false := pyStrip_head_not_ws (by rw [hs]; rfl)
    have hjx : isJsonWs x = false := by
      cases hj : isJsonWs x
      · rfl
      · rw [isJsonWs_isPySpace hj] at hx; cases hx
    simp [skipJsonWs, List.dropWhile_cons, hjx]

theorem mem_ws_of_skipJsonWs_nil {r : Str} (h : skipJsonWs r = []) :
    ∀ c ∈ r, isJsonWs c = true :=
  fun c hc => List.dropWhile_eq_nil_iff.mp h c hc

theorem loads_shape {t : Str} {v : Json}
    (h : json_loads (pyStrip t) = .ok v) :
    parseValue ((pyStrip t).length + 1) (pyStrip t) = .ok (v, []) := by
  unfold json_loads at h
  rw [skipJsonWs_pyStrip] at h
  split at h
  · rename_i w rest hp
    split at h
    · rename_i hemp
      cases h
      have hrest : rest = [] := by
        by_contra hrne
        cases hlast : rest.getLast? with
        | none => exact hrne (List.getLast?_eq_none_iff.mp hlast)
        | some c =>
          have hmem : c ∈ rest := List.mem_of_mem_getLast? (by rw [hlast]; rfl)
          have hws : isJsonWs c = true :=
            mem_ws_of_skipJsonWs_nil (List.isEmpty_iff.mp hemp) c hmem
          have hglob : (pyStrip t).getLast? = some c := by
            rw [getLast?_of_suffix (value_suffix hp) hrne]
            exact hlast
          have hns := pyStrip_getLast_not_ws hglob
          rw [isJsonWs_isPySpace hws] at hns
          cases hns
      rw [hrest] at hp
      exact hp
    · cases h
  · cases h

theorem goodStart_ne_backtick {c : Char} (h : goodStart c) : c ≠ backtick := by
  rcases h with h | h | h | h | h | h | h | h
  · rw [h]; decide
  · rw [h]; decide
  · rw [h]; decide
  · rw [h]; decide
  · rw [h]; decide
  · rw [h]; decide
  · rw [h]; decide
  · intro he
    rw [he] at h
    exact absurd h (by decide)

theorem goodEnd_ne_backtick {c : Char} (h : goodEnd c) : c ≠ backtick := by
  rcases h with h | h | h | h | h | h
  · rw [h]; decide
  · rw [h]; decide
  · rw [h]; decide
  · rw [h]; decide
  · rw [h]; decide
  · intro he
    rw [he] at h
    exact absurd h (by decide)

theorem pyRStrip_ne_nil_of_strip {t : Str} (h : pyStrip t ≠ []) : pyRStrip t ≠ [] := by
  intro hR
  apply h
  have h1 : t.reverse.dropWhile isPySpace = [] := by
    have h0 := congrArg List.reverse hR
    rw [pyRStrip_reverse_eq, List.reverse_reverse] at h0
    simpa using h0
  have h2 : pyLStrip t = [] :=
    List.dropWhile_eq_nil_iff.mpr fun c hc =>
      List.dropWhile_eq_nil_iff.mp h1 c (List.mem_reverse.mpr hc)
  unfold pyStrip
  rw [h2]
  rfl

theorem pyRStrip_decomp {t : Str} (h : pyStrip t ≠ []) :
    pyRStrip t = t.takeWhile isPySpace ++ pyStrip t := by
  conv_lhs => rw [← List.takeWhile_append_dropWhile isPySpace t]
  exact pyRStrip_append h

theorem pyStrip_concat_newline (t : Str) : pyStrip (t ++ ['\n']) = pyStrip t := by
  rw [← pyStrip_of_pyRStrip (t ++ ['\n']), pyRStrip_append_ws (by decide),
    pyStrip_of_pyRStrip]

theorem stripWrapping_plain {t : Str} {c : Char} (hh : (pyStrip t).head? = some c)
    (hc : c ≠ backtick) : stripWrapping t = pyStrip t := by
  have hsf : startsWithFence (pyStrip t) = false := startsWithFence_false_of_head hh hc
  simp [stripWrapping, hsf, pyStrip_idem]

theorem parse_json_response_plain {t : Str} {v : Json}
    (h : json_loads (pyStrip t) = .ok v) : parse_json_response t = .ok v := by
  obtain ⟨c, hh, hgs⟩ := value_head (loads_shape h)
  unfold parse_json_response
  rw [stripWrapping_plain hh (goodStart_ne_backtick hgs)]
  exact h

theorem stripWrapping_wrapFence {t lang : Str} {ce : Char} (trailing : Bool)
    (hlast : (pyStrip t).getLast? = some ce) (hce : ce ≠ backtick)
    (hlang : '\n' ∉ lang) :
    stripWrapping (wrapFence lang t trailing) = pyStrip t := by
  have hne : pyStrip t ≠ [] := ne_nil_of_getLast?_some hlast
  have hna : '\n' ∉ (backtick :: backtick :: backtick :: lang) := by
    intro hm
    rcases List.mem_cons.mp hm with hm | hm
    · exact absurd hm (by decide)
    rcases List.mem_cons.mp hm with hm | hm
    · exact absurd hm (by decide)
    rcases List.mem_cons.mp hm with hm | hm
    · exact absurd hm (by decide)
    · exact hlang hm
  cases trailing with
  | true =>
    have hw2 : wrapFence lang t true =
        ((backtick :: backtick :: backtick :: lang) ++ '\n' :: t) ++
          ['\n', backtick, backtick, backtick] := rfl
    have hw : wrapFence lang t true =
        (backtick :: backtick :: backtick :: lang) ++
          '\n' :: (t ++ ['\n', backtick, backtick, backtick]) := by
      rw [hw2, List.append_assoc]
      rfl
    have hgl : (wrapFence lang t true).getLast? = some backtick := by
      rw [hw2, List.getLast?_append_of_ne_nil _ (by simp)]
      rfl
    have hLh : (wrapFence lang t true).head? = some backtick := rfl
    have hcl : pyStrip (wrapFence lang t true) = wrapFence lang t true := by
      unfold pyStrip
      rw [pyLStrip_eq_self hLh (by decide), pyRStrip_eq_self hgl (by decide)]
    have hsf : startsWithFence (wrapFence lang t true) = true := by
      rw [show wrapFence lang t true = backtick :: backtick :: backtick ::
        ((lang ++ '\n' :: t) ++ ['\n', backtick, backtick, backtick]) from rfl]
      simp [startsWithFence]
    have hdtn : dropThroughNewline (wrapFence lang t true) =
        t ++ ['\n', backtick, backtick, backtick] := by
      rw [hw]
      exact dropThroughNewline_spec hna
    have hshape : t ++ ['\n', backtick, backtick, backtick] =
        (t ++ ['\n']) ++ [backtick, backtick, backtick] := by
      rw [List.append_assoc]
      rfl
    have het : endsWithTicks (t ++ ['\n', backtick, backtick, backtick]) = true := by
      rw [hshape]
      exact endsWithTicks_concat (t ++ ['\n'])
    have hdl3 : dropLast3 (t ++ ['\n', backtick, backtick, backtick]) = t ++ ['\n'] := by
      rw [hshape]
      exact dropLast3_concat (t ++ ['\n']) backtick backtick backtick
    simp [stripWrapping, hcl, hsf, hdtn, het, hdl3, pyStrip_concat_newline]
  | false =>
    have hRt : pyRStrip t ≠ [] := pyRStrip_ne_nil_of_strip hne
    have hw : wrapFence lang t false =
        (backtick :: backtick :: backtick :: lang) ++ '\n' :: t := by
      rw [show wrapFence lang t false =
        ((backtick :: backtick :: backtick :: lang) ++ '\n' :: t) ++ [] from rfl]
      rw [List.append_nil]
    have hw2 : wrapFence lang t false =
        ((backtick :: backtick :: backtick :: lang) ++ ['\n']) ++ t := by
      rw [hw, List.append_assoc]
      rfl
    have hLh : (wrapFence lang t false).head? = some backtick := rfl
    have hcl : pyStrip (wrapFence lang t false) =
        ((backtick :: backtick :: backtick :: lang) ++ ['\n']) ++ pyRStrip t := by
      unfold pyStrip
      rw [pyLStrip_eq_self hLh (by decide), hw2, pyRStrip_append hRt]
    have hsf : startsWithFence
        (backtick :: backtick :: backtick :: (lang ++ '\n' :: pyRStrip t)) = true := by
      simp [startsWithFence]
    have hdtn : dropThroughNewline
        (backtick :: backtick :: backtick :: (lang ++ '\n' :: pyRStrip t)) =
          pyRStrip t :=
      dropThroughNewline_spec hna
    have hlastR : (pyRStrip t).getLast? = some ce := by
      rw [pyRStrip_decomp hne, List.getLast?_append_of_ne_nil _ hne]
      exact hlast
    have het : endsWithTicks (pyRStrip t) = false :=
      endsWithTicks_false_of_getLast hlastR hce
    simp [stripWrapping, hcl, hsf, hdtn, het, pyStrip_of_pyRStrip]

/-- C6: For every reply text whose whitespace-trimmed content is valid JSON,
`_parse_json_response` returns the same parsed value for the reply wrapped in a
triple-backtick fenced code block (with an optional language tag on the fence
line and an optional trailing fence) as for the unwrapped reply; and whenever
`json.loads` fails on the cleaned text, the method propagates the decode
failure rather than returning any empty or default object. -/
theorem parse_json_response_claim :
    (∀ (t lang : Str) (trailing : Bool) (v : Json),
        json_loads (pyStrip t) = .ok v → '\n' ∉ lang →
        parse_json_response (wrapFence lang t trailing) = .ok v ∧
          parse_json_response t = .ok v) ∧
    (∀ t : Str, json_loads (stripWrapping t) = .error () →
        parse_json_response t = .error ()) := by
  constructor
  · intro t lang trailing v h hlang
    obtain ⟨ce, hlast, hge⟩ :=
      (parser_getLast ((pyStrip t).length + 1)).2.1 _ _ (loads_shape h)
    refine ⟨?_, parse_json_response_plain h⟩
    unfold parse_json_response
    rw [stripWrapping_wrapFence trailing hlast (goodEnd_ne_backtick hge) hlang]
    exact h
  · intro t h
    exact h

theorem parse_json_response_claim_witness :
    (json_loads (pyStrip ['{', '}']) = .ok (.obj []) ∧
      ('\n' ∉ (['j', 's', 'o', 'n'] : Str)) ∧
      parse_json_response (wrapFence ['j', 's', 'o', 'n'] ['{', '}'] true) =
        .ok (.obj []) ∧
      parse_json_response ['{', '}'] = .ok (.obj [])) ∧
    (json_loads (stripWrapping ['x']) = .error () ∧
      parse_json_response ['x'] = .error ()) :=
  ⟨⟨rfl, by decide,
    (parse_json_response_claim.1 ['{', '}'] ['j', 's', 'o', 'n'] true (.obj [])
      rfl (by decide)).1,
    (parse_json_response_claim.1 ['{', '}'] ['j', 's', 'o', 'n'] true (.obj [])
      rfl (by decide)).2⟩,
   rfl, parse_json_response_claim.2 ['x'] rfl⟩

end Scraper
